import Mathlib

/-!
Verification development for the `adonese/hft` central limit order book
(file `part_000` of the repository, package `main`).

Modelling conventions (shallow embedding of the Go source):

* `float64` prices are modelled in fixed point: `Price : Int` holds the
  price in units of 1/10000.  The input grammar only admits decimals with
  at most four fractional digits; on that domain the decimal to `float64`
  map is strictly monotone and injective, so every price comparison
  (`==`, `<`, `<=`, `max`) performed by the Go code agrees with the
  corresponding comparison of the scaled integers, and the shortest
  round-trip rendering produced by `strconv.FormatFloat(f, 'f', -1, 64)`
  is the minimal decimal rendering of the scaled integer.
* Go pointers `*Order` are modelled as allocation keys (`Nat`) into a
  store `recs : Nat → Order`; mutation through a pointer is modelled by
  updating the store at the key, so aliasing between the heaps and the
  `Orders` map behaves exactly as in Go.
* `container/heap` keeps its elements in an array satisfying the heap
  property for the `Less` method; observationally (via `[0]`, `heap.Push`,
  `heap.Pop`, `heap.Remove` at an index found by an ID scan) it is a
  priority structure.  We model each heap by the sorted sequence of its
  keys (best first) under the same `Less`.  Because every record receives
  a fresh, strictly larger timestamp when admitted, `Less` is a strict
  total order on the records of one book, so the sorted-sequence model has
  exactly the observable behaviour of the Go heap: `[0]` is the best
  element, `heap.Pop` removes it, and `heap.Remove` of the element found
  by an ID scan removes that element.  (With duplicate order IDs in one
  book the Go ID scan depends on the internal array layout; theorems whose
  proof needs the scan to be unambiguous assume the globally unique IDs
  that the external interface guarantees.)
* `time.Now()` is modelled by the strictly increasing counter `clock`,
  matching the specification of `ts` as a strictly increasing stamp.
* The `for` loop of `matchOrders` is modelled with explicit fuel.  Every
  iteration of the Go loop removes at least one element from a heap
  (a trade zeroes the smaller of the two volumes and pops it, and the
  cancelled branches pop), so `SellOrders.length + BuyOrders.length + 1`
  units of fuel always reach the loop exit; the fuelled function is
  therefore extensionally the Go loop.
* Trades are stored as structured `Trade` records; the Go code stores the
  already formatted string `fmt.Sprintf("%s,%s,%d,%d,%d", ...)`, which is
  exactly `renderTrade` of the record, applied when output is produced.
* Go panics (slice index out of range, nil map/pointer dereference) are
  modelled as `Except.error`.
* Library string primitives that do not reduce in the kernel
  (`String.splitOn`, `strconv` equivalents) are implemented here over
  `String.data` with the same behaviour.
-/

-- Equality of `Except` results is decidable (used to evaluate the
-- concrete scenario theorems).
deriving instance DecidableEq for Except

/-- One order record, mirroring `type Order struct` of the source
(`ID, Symbol, Side, Price, Volume, Inserted, Cancelled`).
`Price` is the fixed-point price (units of 1/10000) and `Inserted` the
timestamp counter value (see module comment). -/
structure Order where
  ID : Int
  Symbol : String
  Side : String
  Price : Int
  Volume : Int
  Inserted : Nat
  Cancelled : Bool
deriving Repr, DecidableEq, Inhabited

/-- One executed fill.  The Go source formats this record immediately with
`fmt.Sprintf("%s,%s,%d,%d,%d", symbol, price, volume, taker.ID, maker.ID)`;
we keep the record and render it with `renderTrade` at output time. -/
structure Trade where
  Symbol : String
  Price : Int
  Volume : Int
  TakerID : Int
  MakerID : Int
deriving Repr, DecidableEq, Inhabited

/-- Pointer store update: writing through the pointer `k`. -/
def setRec (recs : Nat → Order) (k : Nat) (o : Order) : Nat → Order :=
  fun j => if j = k then o else recs j

/-- Comparator `MaxHeap.Less` of the source: higher price first, ties on
price broken by the earlier `Inserted` stamp. -/
def buyBefore (a b : Order) : Bool :=
  if a.Price = b.Price then decide (a.Inserted < b.Inserted)
  else decide (b.Price < a.Price)

/-- Comparator `MinHeap.Less` of the source: lower price first, ties on
price broken by the earlier `Inserted` stamp. -/
def sellBefore (a b : Order) : Bool :=
  if a.Price = b.Price then decide (a.Inserted < b.Inserted)
  else decide (a.Price < b.Price)

/-- Insertion of a key into the sorted sequence modelling a heap: the new
key is placed before the first element it outranks (`heap.Push` followed by
sift-up, observed through the priority order). -/
def insertByKey (lt : Nat → Nat → Bool) (x : Nat) : List Nat → List Nat
  | [] => [x]
  | y :: ys => if lt x y then x :: y :: ys else y :: insertByKey lt x ys

/-- Linear ID scan and removal, mirroring `removeOrderFromHeap` and the
scan in `Cancel`: remove the first key whose record carries the given ID. -/
def removeFirstID (recs : Nat → Order) (id : Int) : List Nat → List Nat
  | [] => []
  | k :: ks => if (recs k).ID = id then ks else k :: removeFirstID recs id ks

/-- The book, mirroring `type OrderBook struct`.  `recs`/`nextKey` model
the Go heap of allocated `Order` records, `BuyOrders`/`SellOrders` the two
priority structures (keys, best first), `Orders` the `map[int]*Order`
index, and `clock` the `time.Now()` source (module comment). -/
structure OrderBook where
  nextKey : Nat
  clock : Nat
  recs : Nat → Order
  BuyOrders : List Nat
  SellOrders : List Nat
  Orders : Int → Option Nat
  Trades : List Trade

/-- `NewOrderBook()` of the source: empty heaps, empty index, no trades. -/
def emptyBook : OrderBook :=
  { nextKey := 0, clock := 0, recs := fun _ => default,
    BuyOrders := [], SellOrders := [], Orders := fun _ => none, Trades := [] }

/-- `insertOrderIntoHeap` of the source: push the record into the heap for
its side; an unrecognized side is only logged. -/
def OrderBook.insertOrderIntoHeap (ob : OrderBook) (k : Nat) : OrderBook :=
  if (ob.recs k).Side = "BUY" then
    { ob with
        BuyOrders := insertByKey (fun a b => buyBefore (ob.recs a) (ob.recs b)) k ob.BuyOrders }
  else if (ob.recs k).Side = "SELL" then
    { ob with
        SellOrders := insertByKey (fun a b => sellBefore (ob.recs a) (ob.recs b)) k ob.SellOrders }
  else ob

/-- `removeOrderFromHeap` of the source: linear scan for the first heap
element with the given ID, then `heap.Remove`; no-op when not found. -/
def OrderBook.removeOrderFromHeap (ob : OrderBook) (o : Order) : OrderBook :=
  if o.Side = "BUY" then
    { ob with BuyOrders := removeFirstID ob.recs o.ID ob.BuyOrders }
  else if o.Side = "SELL" then
    { ob with SellOrders := removeFirstID ob.recs o.ID ob.SellOrders }
  else ob

/-- The trade iteration of the `matchOrders` loop body (the branch of the
source where `sellOrder.Price <= buyOrder.Price`): decrement both volumes
by the traded amount, attribute maker and taker from the initiator, record
the trade, and pop each side whose top reached volume zero. -/
def tradeStep (initID : Int) (initSide : String) (handleTwoSells : Bool)
    (ob : OrderBook) (sk bk : Nat) (srest brest : List Nat) : OrderBook :=
  let sell := ob.recs sk
  let buy := ob.recs bk
  let volume := min sell.Volume buy.Volume
  let recs2 := setRec (setRec ob.recs sk ({ sell with Volume := sell.Volume - volume }))
    bk ({ buy with Volume := buy.Volume - volume })
  let takerID := if initID = sell.ID ∧ initSide = "SELL" then sell.ID else buy.ID
  let makerID := if initID = sell.ID ∧ initSide = "SELL" then buy.ID else sell.ID
  let matchingPrice := if handleTwoSells then sell.Price else max sell.Price buy.Price
  let tr : Trade := { Symbol := sell.Symbol, Price := matchingPrice, Volume := volume,
                      TakerID := takerID, MakerID := makerID }
  { ob with
    recs := recs2,
    SellOrders := if (recs2 sk).Volume = 0 then srest else ob.SellOrders,
    BuyOrders := if (recs2 bk).Volume = 0 then brest else ob.BuyOrders,
    Trades := ob.Trades ++ [tr] }

/-- The body of the `for` loop of `matchOrders`, with explicit fuel (see
module comment: the stated fuel always reaches the loop exit).
`handleTwoSells` is the flag computed once at entry of `matchOrders`. -/
def matchLoop (initID : Int) (initSide : String) (handleTwoSells : Bool) :
    Nat → OrderBook → OrderBook
  | 0, ob => ob
  | fuel + 1, ob =>
    match ob.SellOrders, ob.BuyOrders with
    | sk :: srest, bk :: brest =>
      if (ob.recs sk).Cancelled = true then
        matchLoop initID initSide handleTwoSells fuel { ob with SellOrders := srest }
      else if (ob.recs bk).Cancelled = true then
        matchLoop initID initSide handleTwoSells fuel { ob with BuyOrders := brest }
      else if (ob.recs sk).Price ≤ (ob.recs bk).Price then
        matchLoop initID initSide handleTwoSells fuel
          (tradeStep initID initSide handleTwoSells ob sk bk srest brest)
      else ob
    | _, _ => ob

/-- `matchOrders` of the source: computes the `handleTwoSells` flag once
(`SellOrders.Len() == 2` at entry), then runs the matching loop. -/
def OrderBook.matchOrders (ob : OrderBook) (initID : Int) (initSide : String) : OrderBook :=
  matchLoop initID initSide (ob.SellOrders.length == 2)
    (ob.SellOrders.length + ob.BuyOrders.length + 1) ob

/-- `Insert` of the source: stamp `Inserted` with the current time, push
into the heap for the side, register in the `Orders` index, and run the
matching loop with this order as initiator. -/
def OrderBook.Insert (ob : OrderBook) (order : Order) : OrderBook :=
  let o := { order with Inserted := ob.clock }
  let k := ob.nextKey
  let ob1 : OrderBook :=
    { ob with recs := setRec ob.recs k o, nextKey := k + 1, clock := ob.clock + 1 }
  let ob2 := ob1.insertOrderIntoHeap k
  let ob3 : OrderBook := { ob2 with Orders := fun i => if i = o.ID then some k else ob2.Orders i }
  ob3.matchOrders o.ID o.Side

/-- `Update` of the source.  Guards in source order: unknown ID,
`Cancelled || newVolume <= 0`, `Volume <= 0` are silent returns.  (The
second `newVolume <= 0` test of the source is unreachable after the first
guard and is omitted.)  A volume increase refreshes the timestamp; any
price or volume change removes the record from its heap and reinserts it;
afterwards the matching loop runs with this order as initiator. -/
def OrderBook.Update (ob : OrderBook) (orderID : Int) (newPrice : Int) (newVolume : Int) :
    OrderBook :=
  match ob.Orders orderID with
  | none => ob
  | some k =>
    let existing := ob.recs k
    if existing.Cancelled = true ∨ newVolume ≤ 0 then ob
    else if existing.Volume ≤ 0 then ob
    else
      let ob1 : OrderBook :=
        if existing.Volume < newVolume then
          { ob with recs := setRec ob.recs k ({ existing with Inserted := ob.clock }),
                    clock := ob.clock + 1 }
        else ob
      let existing1 := ob1.recs k
      if existing1.Price ≠ newPrice ∨ existing1.Volume ≠ newVolume then
        let ob2 := ob1.removeOrderFromHeap existing1
        let ob3 : OrderBook :=
          { ob2 with
              recs := setRec ob2.recs k
                ({ existing1 with Price := newPrice, Volume := newVolume }) }
        let ob4 := ob3.insertOrderIntoHeap k
        let ob5 : OrderBook :=
          { ob4 with Orders := fun i => if i = orderID then some k else ob4.Orders i }
        ob5.matchOrders orderID existing1.Side
      else
        let ob3 : OrderBook :=
          { ob1 with recs := setRec ob1.recs k ({ existing1 with Volume := newVolume }) }
        let ob5 : OrderBook :=
          { ob3 with Orders := fun i => if i = orderID then some k else ob3.Orders i }
        ob5.matchOrders orderID existing1.Side

/-- `Cancel` of the source: unknown ID is a silent no-op; otherwise set
`Cancelled`, then scan the heap of the record side for the first element
with this ID and `heap.Remove` it.  No matching loop. -/
def OrderBook.Cancel (ob : OrderBook) (orderID : Int) : OrderBook :=
  match ob.Orders orderID with
  | none => ob
  | some k =>
    let o := ob.recs k
    let ob1 : OrderBook := { ob with recs := setRec ob.recs k ({ o with Cancelled := true }) }
    if o.Side = "BUY" then
      { ob1 with BuyOrders := removeFirstID ob1.recs o.ID ob1.BuyOrders }
    else if o.Side = "SELL" then
      { ob1 with SellOrders := removeFirstID ob1.recs o.ID ob1.SellOrders }
    else ob1

/-! ## The engine (`runMatchingEngine` and its helpers) -/

/-- The registry `OrderBooks` (`map[string]*OrderBook`), modelled as an
association list in creation order.  Go map iteration order is random;
every iteration the source performs over this map is either
order-insensitive or determined by the globally unique order IDs, so the
creation-order determinization is observationally faithful. -/
abbrev Books := List (String × OrderBook)

/-- Registry lookup `obs[symbol]`. -/
def lookupBook : Books → String → Option OrderBook
  | [], _ => none
  | (s0, ob) :: rest, s => if s0 = s then some ob else lookupBook rest s

/-- Registry update `obs[symbol] = ob` (replace the existing binding). -/
def setBook : Books → String → OrderBook → Books
  | [], s, ob => [(s, ob)]
  | (s0, ob0) :: rest, s, ob =>
    if s0 = s then (s0, ob) :: rest else (s0, ob0) :: setBook rest s ob

/-- `OrderBooks.Insert` of the source: find or lazily create the book of
the symbol, then delegate to `OrderBook.Insert`. -/
def booksInsert (books : Books) (order : Order) : Books :=
  match lookupBook books order.Symbol with
  | some ob => setBook books order.Symbol (ob.Insert order)
  | none => books ++ [(order.Symbol, emptyBook.Insert order)]

/-- The UPDATE symbol scan of `runMatchingEngine`: first book whose
`Orders` index knows the ID. -/
def findBookWithID : Books → Int → Option String
  | [], _ => none
  | (s, ob) :: rest, i =>
    if (ob.Orders i).isSome then some s else findBookWithID rest i

/-- The CANCEL symbol scan of `runMatchingEngine`: every book is visited
and `symbol` is overwritten whenever the ID occurs in one of its heaps, so
the last hit wins; `""` (the Go zero string) when never found. -/
def cancelScan (books : Books) (orderID : Int) : String :=
  books.foldl (fun sym sb =>
    if sb.2.BuyOrders.any (fun k => (sb.2.recs k).ID == orderID)
        || sb.2.SellOrders.any (fun k => (sb.2.recs k).ID == orderID)
    then sb.1 else sym) ""

/-- Numeric value of a digit run. -/
def digitsVal (l : List Char) : Nat :=
  l.foldl (fun acc c => acc * 10 + (c.toNat - 48)) 0

/-- True when the character list is a nonempty run of decimal digits. -/
def isDigits (l : List Char) : Bool :=
  !l.isEmpty && l.all Char.isDigit

/-- `strconv.Atoi` with the error discarded (`orderID, _ := strconv.Atoi`):
the zero value on any parse failure. -/
def parseGoInt (s : String) : Int :=
  match s.data with
  | '-' :: rest => if isDigits rest then -(digitsVal rest : Int) else 0
  | '+' :: rest => if isDigits rest then (digitsVal rest : Int) else 0
  | l => if isDigits l then (digitsVal l : Int) else 0

/-- Split a character list at the first decimal point. -/
def splitAtDot : List Char → List Char × Option (List Char)
  | [] => ([], none)
  | c :: rest =>
    if c = '.' then ([], some rest)
    else
      let p := splitAtDot rest
      (c :: p.1, p.2)

/-- The fixed-point value of a fraction digit run: the first four digits,
zero padded to four places (the input grammar admits at most four). -/
def frac4 (b : List Char) : Nat :=
  digitsVal (b.take 4 ++ List.replicate (4 - b.length) '0')

/-- `strconv.ParseFloat` with the error discarded, scaled to fixed point
(units of 1/10000): the exact value on the decimal fragment of the
grammar (optional sign, digits, optional point and digits), the zero
value on a parse failure. -/
def parseGoPrice (s : String) : Int :=
  let signed : Int × List Char :=
    match s.data with
    | '-' :: rest => (-1, rest)
    | '+' :: rest => (1, rest)
    | l => (1, l)
  match splitAtDot signed.2 with
  | (a, none) => if isDigits a then signed.1 * (digitsVal a : Int) * 10000 else 0
  | (a, some b) =>
    if (a.isEmpty || isDigits a) && (b.isEmpty || isDigits b) && !(a.isEmpty && b.isEmpty) then
      signed.1 * ((digitsVal a : Int) * 10000 + (frac4 b : Int))
    else 0

/-- Trailing zeros of the fractional digit block are trimmed. -/
def stripZeros (l : List Char) : List Char :=
  (l.reverse.dropWhile (fun c => c = '0')).reverse

/-- Four-digit zero-padded rendering of a natural number below 10000. -/
def padLeft4 (n : Nat) : List Char :=
  let s := (toString n).data
  List.replicate (4 - s.length) '0' ++ s

/-- `formatFloat` of the source on the fixed-point representation:
integral values print with no decimal point (`%.0f`); other values print
in shortest round-trip form, which for the at-most-four-fractional-digit
price domain is the minimal decimal rendering (module comment). -/
def formatFloat (p : Int) : String :=
  if p % 10000 = 0 then toString (p / 10000)
  else
    (if p < 0 then "-" else "") ++ toString (p.natAbs / 10000) ++ "."
      ++ String.mk (stripZeros (padLeft4 (p.natAbs % 10000)))

/-- The trade line `fmt.Sprintf("%s,%s,%d,%d,%d", symbol,
formatFloat(price), volume, taker.ID, maker.ID)`. -/
def renderTrade (t : Trade) : String :=
  t.Symbol ++ "," ++ formatFloat t.Price ++ "," ++ toString t.Volume ++ ","
    ++ toString t.TakerID ++ "," ++ toString t.MakerID

/-- Lexicographic comparison of character lists (byte-wise Go string
order restricted to ASCII). -/
def charListLe : List Char → List Char → Bool
  | [], _ => true
  | _ :: _, [] => false
  | a :: as, b :: bs => if a = b then charListLe as bs else decide (a < b)

/-- Go string order `x <= y` used by `sort.Strings`. -/
def strLeb (x y : String) : Bool := charListLe x.data y.data

/-- Insertion step of `sort.Strings` (ascending). -/
def insertStr (x : String) : List String → List String
  | [] => [x]
  | y :: ys => if strLeb x y then x :: y :: ys else y :: insertStr x ys

/-- `sort.Strings`: ascending lexicographic sort of the symbols. -/
def sortStrings (l : List String) : List String := l.foldr insertStr []

/-- Accumulation into the per-price aggregation map
(`sellOrderMap[order.Price] += order.Volume`). -/
def addLevel (l : List (Int × Int)) (p : Int) (v : Int) : List (Int × Int) :=
  match l with
  | [] => [(p, v)]
  | (p0, v0) :: rest => if p0 = p then (p0, v0 + v) :: rest else (p0, v0) :: addLevel rest p v

/-- Aggregate the non-cancelled orders of one heap by price level. -/
def aggregateSide (recs : Nat → Order) (keys : List Nat) : List (Int × Int) :=
  keys.foldl (fun acc k =>
    if (recs k).Cancelled = false then addLevel acc (recs k).Price (recs k).Volume else acc) []

/-- Insertion step of `sort.Slice` by price descending (prices in the
aggregation are pairwise distinct, so the result is determined). -/
def insertLevel (x : Int × Int) : List (Int × Int) → List (Int × Int)
  | [] => [x]
  | y :: ys => if y.1 < x.1 then x :: y :: ys else y :: insertLevel x ys

/-- Sort price levels by price descending. -/
def sortLevelsDesc (l : List (Int × Int)) : List (Int × Int) := l.foldr insertLevel []

/-- The per-symbol snapshot section: separator, then SELL levels by price
descending, then BUY levels by price descending. -/
def summarizeBook (s : String) (ob : OrderBook) : List String :=
  let sellLevels := sortLevelsDesc (aggregateSide ob.recs ob.SellOrders)
  let buyLevels := sortLevelsDesc (aggregateSide ob.recs ob.BuyOrders)
  ("===" ++ s ++ "===")
    :: (sellLevels.map (fun pv => "SELL," ++ formatFloat pv.1 ++ "," ++ toString pv.2)
      ++ buyLevels.map (fun pv => "BUY," ++ formatFloat pv.1 ++ "," ++ toString pv.2))

/-- The output phase of `runMatchingEngine`: per symbol in ascending
order, each book contributes its trades to the trade block and its
snapshot section to the summary block; output is trades then summaries. -/
def formatOutput (books : Books) : List String :=
  let symbols := sortStrings (books.map Prod.fst)
  let tradeLines := symbols.flatMap (fun s =>
    match lookupBook books s with
    | some ob => ob.Trades.map renderTrade
    | none => [])
  let summaryLines := symbols.flatMap (fun s =>
    match lookupBook books s with
    | some ob => summarizeBook s ob
    | none => [])
  tradeLines ++ summaryLines

/-- Accumulator recursion for `strings.Split(operation, ",")`. -/
def splitCommaAux : List Char → List Char → List String
  | [], acc => [String.mk acc.reverse]
  | c :: rest, acc =>
    if c = ',' then String.mk acc.reverse :: splitCommaAux rest []
    else splitCommaAux rest (c :: acc)

/-- Split an operation line at the commas (`strings.Split(s, ",")`). -/
def splitComma (s : String) : List String := splitCommaAux s.data []

/-- One operation line of the dispatch loop of `runMatchingEngine`.
Missing fields behind a recognized leading token reproduce the Go slice
index panic; a CANCEL whose scan finds no book reproduces the Go nil
pointer dereference of the logging branch; an unrecognized leading token
falls through the `switch` as a no-op. -/
def applyOp (books : Books) (operation : String) : Except String Books :=
  let parts := splitComma operation
  match parts with
  | [] => Except.ok books
  | cmd :: _ =>
    if cmd = "INSERT" then
      match parts[1]?, parts[2]?, parts[3]?, parts[4]?, parts[5]? with
      | some p1, some p2, some p3, some p4, some p5 =>
        Except.ok (booksInsert books
          { ID := parseGoInt p1, Symbol := p2, Side := p3,
            Price := parseGoPrice p4, Volume := parseGoInt p5,
            Inserted := 0, Cancelled := false })
      | _, _, _, _, _ => Except.error "index out of range"
    else if cmd = "UPDATE" then
      match parts[1]?, parts[2]?, parts[3]? with
      | some p1, some p2, some p3 =>
        let orderID := parseGoInt p1
        match findBookWithID books orderID with
        | none => Except.ok books
        | some s =>
          match lookupBook books s with
          | some ob =>
            Except.ok (setBook books s (ob.Update orderID (parseGoPrice p2) (parseGoInt p3)))
          | none => Except.ok books
      | _, _, _ => Except.error "index out of range"
    else if cmd = "CANCEL" then
      match parts[1]? with
      | some p1 =>
        let orderID := parseGoInt p1
        let symbol := cancelScan books orderID
        match lookupBook books symbol with
        | some ob => Except.ok (setBook books symbol (ob.Cancel orderID))
        | none => Except.error "invalid memory address or nil pointer dereference"
      | none => Except.error "index out of range"
    else Except.ok books

/-- Number of trades currently recorded for a symbol. -/
def tradeCountIn (books : Books) (s : String) : Nat :=
  match lookupBook books s with
  | some ob => ob.Trades.length
  | none => 0

/-- The trades appended by the operation that turned `before` into
`after` (each operation touches a single book). -/
def newTrades (before after : Books) : List Trade :=
  after.flatMap (fun sb => sb.2.Trades.drop (tradeCountIn before sb.1))

/-- The dispatch loop, also collecting the ghost chronological fill log:
fills in the order they occur across all symbols. -/
def runOps : List String → Books → List Trade → Except String (Books × List Trade)
  | [], books, chrono => Except.ok (books, chrono)
  | op :: rest, books, chrono =>
    match applyOp books op with
    | Except.error e => Except.error e
    | Except.ok books2 => runOps rest books2 (chrono ++ newTrades books books2)

/-- `runMatchingEngine` of the source: process every operation line, then
produce the trade block followed by the per-symbol snapshot sections. -/
def runMatchingEngine (operations : List String) : Except String (List String) :=
  match runOps operations [] [] with
  | Except.ok r => Except.ok (formatOutput r.1)
  | Except.error e => Except.error e

/-- Ghost observation: the chronological sequence of fills, across all
symbols, produced while processing the operations. -/
def chronoLog (operations : List String) : Except String (List Trade) :=
  match runOps operations [] [] with
  | Except.ok r => Except.ok r.2
  | Except.error e => Except.error e

/-! ## Concrete scenario theorems -/

/-- C8: on the literal input sequence
`INSERT,1,FFLY,SELL,12.2,5 ; INSERT,2,FFLY,SELL,12.1,8 ;
INSERT,3,FFLY,BUY,12.5,10` the engine outputs exactly the lines
`FFLY,12.1,8,3,2 ; FFLY,12.2,2,3,1 ; ===FFLY=== ; SELL,12.2,3`: the
incoming BUY (id 3) is the taker and consumes the resting SELLs
best-first at each maker price. -/
theorem C8_scenario_B :
    runMatchingEngine
      ["INSERT,1,FFLY,SELL,12.2,5", "INSERT,2,FFLY,SELL,12.1,8",
        "INSERT,3,FFLY,BUY,12.5,10"]
      = Except.ok ["FFLY,12.1,8,3,2", "FFLY,12.2,2,3,1", "===FFLY===", "SELL,12.2,3"] := by
  rfl

/-- C9 counterexample: on the literal input sequence
`INSERT,1,FFLY,BUY,23.45,12 ; INSERT,2,FFLY,SELL,23.50,10 ;
UPDATE,1,23.48,12 ; CANCEL,2` the engine does NOT output the lines claimed
by the specification (`FFLY,23.50,10,1,2 ; ===FFLY=== ; BUY,23.48,2`):
after the update the BUY rests at 23.48, strictly below the SELL at
23.50, so no cross exists and no trade can occur. -/
theorem C9_counterexample :
    runMatchingEngine
      ["INSERT,1,FFLY,BUY,23.45,12", "INSERT,2,FFLY,SELL,23.50,10",
        "UPDATE,1,23.48,12", "CANCEL,2"]
      ≠ Except.ok ["FFLY,23.50,10,1,2", "===FFLY===", "BUY,23.48,2"] := by
  decide

/-- C9 amended: on the literal input sequence
`INSERT,1,FFLY,BUY,23.45,12 ; INSERT,2,FFLY,SELL,23.50,10 ;
UPDATE,1,23.48,12 ; CANCEL,2` the engine outputs exactly
`===FFLY=== ; BUY,23.48,12`: the update moves the BUY to 23.48 without
crossing the resting SELL at 23.50, so no trade occurs; the cancel then
removes the SELL, leaving the full BUY volume of 12 resting. -/
theorem C9_amended_output :
    runMatchingEngine
      ["INSERT,1,FFLY,BUY,23.45,12", "INSERT,2,FFLY,SELL,23.50,10",
        "UPDATE,1,23.48,12", "CANCEL,2"]
      = Except.ok ["===FFLY===", "BUY,23.48,12"] := by
  rfl

/-- C1 evaluation at the failing input: with a single resting SELL at 12.1
(so the two-sells special case does not fire), an incoming BUY at 12.5
trades at 12.5 — the price of the taker (the initiating BUY) — although
the maker is the resting SELL id 1 at 12.1.  The trade line records
execution price 12.5, not the maker price 12.1, refuting the claim that
every fill executes at the price of the maker regardless of how many sell
orders are resting. -/
theorem C1_code_eval :
    runMatchingEngine ["INSERT,1,FFLY,SELL,12.1,8", "INSERT,2,FFLY,BUY,12.5,10"]
      = Except.ok ["FFLY,12.5,8,2,1", "===FFLY===", "BUY,12.5,2"] := by
  rfl

/-- C6 evaluation at the failing input: the FFLY fill occurs before the
AAA fill (second operation versus fourth), as the ghost chronological log
records, yet the output lists the AAA trade line first because trade
lines are emitted grouped per symbol in ascending symbol order, not in
global chronological order. -/
theorem C6_code_eval :
    runMatchingEngine
      ["INSERT,1,FFLY,BUY,10,5", "INSERT,2,FFLY,SELL,10,5",
        "INSERT,3,AAA,BUY,10,5", "INSERT,4,AAA,SELL,10,5"]
      = Except.ok ["AAA,10,5,4,3", "FFLY,10,5,2,1", "===AAA===", "===FFLY==="]
    ∧ chronoLog
      ["INSERT,1,FFLY,BUY,10,5", "INSERT,2,FFLY,SELL,10,5",
        "INSERT,3,AAA,BUY,10,5", "INSERT,4,AAA,SELL,10,5"]
      = Except.ok
        [{ Symbol := "FFLY", Price := 100000, Volume := 5, TakerID := 2, MakerID := 1 },
          { Symbol := "AAA", Price := 100000, Volume := 5, TakerID := 4, MakerID := 3 }] := by
  exact ⟨rfl, rfl⟩

/-- C7 evaluation at the failing input: an INSERT line with too few
comma-separated fields makes the dispatch loop read past the end of the
split slice, which in the Go source is an uncaught index-out-of-range
panic escaping `runMatchingEngine` — not a silent no-op.  (A line whose
leading token is unrecognized does fall through the switch as a no-op,
as the second conjunct shows.) -/
theorem C7_code_eval :
    runMatchingEngine ["INSERT,1,FFLY"] = Except.error "index out of range"
    ∧ runMatchingEngine ["HELLO,1,2,3,4,5"] = Except.ok [] := by
  exact ⟨rfl, rfl⟩

/-! ## Comparator lemmas -/

/-- Agreement of two records on every field the heap comparators read and
the matching loop preserves (everything except `Volume`). -/
def sameShape (o o' : Order) : Prop :=
  o.ID = o'.ID ∧ o.Symbol = o'.Symbol ∧ o.Side = o'.Side ∧ o.Price = o'.Price
    ∧ o.Inserted = o'.Inserted ∧ o.Cancelled = o'.Cancelled

theorem sameShape_refl (o : Order) : sameShape o o :=
  ⟨rfl, rfl, rfl, rfl, rfl, rfl⟩

theorem sameShape_trans {a b c : Order} (h1 : sameShape a b) (h2 : sameShape b c) :
    sameShape a c := by
  obtain ⟨e1, e2, e3, e4, e5, e6⟩ := h1
  obtain ⟨f1, f2, f3, f4, f5, f6⟩ := h2
  exact ⟨e1.trans f1, e2.trans f2, e3.trans f3, e4.trans f4, e5.trans f5, e6.trans f6⟩

theorem sameShape_setVolume (o : Order) (v : Int) :
    sameShape ({ o with Volume := v }) o :=
  ⟨rfl, rfl, rfl, rfl, rfl, rfl⟩

theorem buyBefore_congr {a a' b b' : Order} (ha : sameShape a a') (hb : sameShape b b') :
    buyBefore a b = buyBefore a' b' := by
  unfold buyBefore
  rw [ha.2.2.2.1, hb.2.2.2.1, ha.2.2.2.2.1, hb.2.2.2.2.1]

theorem sellBefore_congr {a a' b b' : Order} (ha : sameShape a a') (hb : sameShape b b') :
    sellBefore a b = sellBefore a' b' := by
  unfold sellBefore
  rw [ha.2.2.2.1, hb.2.2.2.1, ha.2.2.2.2.1, hb.2.2.2.2.1]

theorem buyBefore_trans {a b c : Order} (h1 : buyBefore a b = true)
    (h2 : buyBefore b c = true) : buyBefore a c = true := by
  unfold buyBefore at *
  split at h1 <;> split at h2 <;> split <;> simp_all <;> omega

theorem sellBefore_trans {a b c : Order} (h1 : sellBefore a b = true)
    (h2 : sellBefore b c = true) : sellBefore a c = true := by
  unfold sellBefore at *
  split at h1 <;> split at h2 <;> split <;> simp_all <;> omega

theorem buyBefore_asymm {a b : Order} (h : buyBefore a b = true) :
    buyBefore b a = false := by
  unfold buyBefore at *
  split at h <;> split <;> simp_all <;> omega

theorem sellBefore_asymm {a b : Order} (h : sellBefore a b = true) :
    sellBefore b a = false := by
  unfold sellBefore at *
  split at h <;> split <;> simp_all <;> omega

theorem buyBefore_total {a b : Order} (hts : a.Inserted ≠ b.Inserted) :
    buyBefore a b = true ∨ buyBefore b a = true := by
  unfold buyBefore
  split <;> split <;> simp_all <;> omega

theorem sellBefore_total {a b : Order} (hts : a.Inserted ≠ b.Inserted) :
    sellBefore a b = true ∨ sellBefore b a = true := by
  unfold sellBefore
  split <;> split <;> simp_all <;> omega

theorem price_le_of_buyBefore {a b : Order} (h : buyBefore a b = true) :
    b.Price ≤ a.Price := by
  unfold buyBefore at h
  split at h <;> simp_all <;> omega

theorem price_le_of_sellBefore {a b : Order} (h : sellBefore a b = true) :
    a.Price ≤ b.Price := by
  unfold sellBefore at h
  split at h <;> simp_all <;> omega

/-- A fresh timestamp outranks nothing at equal price from before: a
record stamped later than another is never placed before it at the same
price (BUY side). -/
theorem buyBefore_fresh {a b : Order} (hts : b.Inserted < a.Inserted)
    (h : buyBefore a b = true) : b.Price < a.Price := by
  unfold buyBefore at h
  split at h <;> simp_all <;> omega

/-- A fresh timestamp outranks nothing at equal price from before (SELL
side). -/
theorem sellBefore_fresh {a b : Order} (hts : b.Inserted < a.Inserted)
    (h : sellBefore a b = true) : a.Price < b.Price := by
  unfold sellBefore at h
  split at h <;> simp_all <;> omega

/-! ## Generic sorted-key-list lemmas -/

theorem insertByKey_mem {lt : Nat → Nat → Bool} {x y : Nat} {l : List Nat} :
    y ∈ insertByKey lt x l ↔ y = x ∨ y ∈ l := by
  induction l with
  | nil => simp [insertByKey]
  | cons z zs ih =>
    simp only [insertByKey]
    split
    all_goals simp only [List.mem_cons, ih]
    all_goals tauto

theorem insertByKey_pairwise {lt : Nat → Nat → Bool} {x : Nat} {l : List Nat}
    (htrans : ∀ a b c, lt a b = true → lt b c = true → lt a c = true)
    (hconn : ∀ y ∈ l, lt x y = true ∨ lt y x = true)
    (hp : l.Pairwise (fun a b => lt a b = true)) :
    (insertByKey lt x l).Pairwise (fun a b => lt a b = true) := by
  induction l with
  | nil => simp [insertByKey]
  | cons y ys ih =>
    rw [List.pairwise_cons] at hp
    simp only [insertByKey]
    split
    · rename_i hxy
      rw [List.pairwise_cons]
      refine ⟨?_, List.pairwise_cons.mpr hp⟩
      intro z hz
      rcases List.mem_cons.mp hz with rfl | hz2
      · exact hxy
      · exact htrans _ _ _ hxy (hp.1 z hz2)
    · rename_i hxy
      have hyx : lt y x = true := by
        rcases hconn y (List.mem_cons_self y ys) with h | h
        · exact absurd h hxy
        · exact h
      rw [List.pairwise_cons]
      constructor
      · intro z hz
        rcases insertByKey_mem.mp hz with rfl | hz2
        · exact hyx
        · exact hp.1 z hz2
      · exact ih (fun z hz => hconn z (List.mem_cons_of_mem y hz)) hp.2

/-- The sorted insertion splits the list at the first element the new key
outranks: everything before is kept, everything after is outranked. -/
theorem insertByKey_split {lt : Nat → Nat → Bool} {x : Nat} {l : List Nat}
    (htrans : ∀ a b c, lt a b = true → lt b c = true → lt a c = true)
    (hp : l.Pairwise (fun a b => lt a b = true)) :
    ∃ l1 l2, insertByKey lt x l = l1 ++ x :: l2 ∧ l = l1 ++ l2
      ∧ (∀ y ∈ l1, lt x y = false) ∧ (∀ y ∈ l2, lt x y = true) := by
  induction l with
  | nil => exact ⟨[], [], rfl, rfl, by simp, by simp⟩
  | cons y ys ih =>
    rw [List.pairwise_cons] at hp
    simp only [insertByKey]
    split
    · rename_i hxy
      refine ⟨[], y :: ys, rfl, rfl, by simp, ?_⟩
      intro z hz
      rcases List.mem_cons.mp hz with rfl | hz2
      · exact hxy
      · exact htrans _ _ _ hxy (hp.1 z hz2)
    · rename_i hxy
      obtain ⟨l1, l2, he, hl, h1, h2⟩ := ih hp.2
      refine ⟨y :: l1, l2, ?_, by rw [List.cons_append, ← hl], ?_, h2⟩
      · rw [List.cons_append, ← he]
      · intro z hz
        rcases List.mem_cons.mp hz with rfl | hz2
        · exact Bool.eq_false_iff.mpr hxy
        · exact h1 z hz2

/-- Reinserting a key between the elements that outrank it and the
elements it outranks reproduces the original list. -/
theorem insertByKey_restore {lt : Nat → Nat → Bool} {x : Nat} {l1 l2 : List Nat}
    (h1 : ∀ y ∈ l1, lt x y = false)
    (h2 : ∀ y ∈ l2, lt x y = true) :
    insertByKey lt x (l1 ++ l2) = l1 ++ x :: l2 := by
  induction l1 with
  | nil =>
    cases l2 with
    | nil => rfl
    | cons z zs =>
      rw [List.nil_append, List.nil_append]
      simp only [insertByKey]
      rw [if_pos (h2 z (List.mem_cons_self z zs))]
  | cons y t ih =>
    rw [List.cons_append, List.cons_append]
    simp only [insertByKey]
    rw [if_neg (by rw [h1 y (List.mem_cons_self y t)]; exact Bool.false_ne_true)]
    rw [ih (fun z hz => h1 z (List.mem_cons_of_mem y hz))]

theorem removeFirstID_sublist (recs : Nat → Order) (id : Int) (l : List Nat) :
    (removeFirstID recs id l).Sublist l := by
  induction l with
  | nil => simp [removeFirstID]
  | cons k ks ih =>
    simp only [removeFirstID]
    split
    · exact List.Sublist.cons k (List.Sublist.refl ks)
    · exact List.Sublist.cons₂ k ih

/-- When no element of the list carries the ID, the removal scan is the
identity. -/
theorem removeFirstID_not_found {recs : Nat → Order} {id : Int} {l : List Nat}
    (h : ∀ k ∈ l, (recs k).ID ≠ id) : removeFirstID recs id l = l := by
  induction l with
  | nil => rfl
  | cons k ks ih =>
    simp only [removeFirstID]
    rw [if_neg (h k (List.mem_cons_self k ks))]
    rw [ih (fun z hz => h z (List.mem_cons_of_mem k hz))]

/-- When the indexed key is the unique carrier of the ID in the list, the
removal scan splits the list exactly at that key. -/
theorem removeFirstID_unique {recs : Nat → Order} {id : Int} {l : List Nat} {k : Nat}
    (hk : k ∈ l) (hid : (recs k).ID = id)
    (huniq : ∀ j ∈ l, (recs j).ID = id → j = k)
    (hnd : l.Nodup) :
    ∃ l1 l2, l = l1 ++ k :: l2 ∧ removeFirstID recs id l = l1 ++ l2
      ∧ k ∉ l1 ∧ k ∉ l2 := by
  induction l with
  | nil => cases hk
  | cons j js ih =>
    rw [List.nodup_cons] at hnd
    by_cases hj : (recs j).ID = id
    · have : j = k := huniq j (List.mem_cons_self j js) hj
      subst this
      refine ⟨[], js, rfl, ?_, by simp, hnd.1⟩
      simp only [removeFirstID]
      rw [if_pos hj]
      simp
    · have hk2 : k ∈ js := by
        rcases List.mem_cons.mp hk with rfl | h
        · exact absurd hid hj
        · exact h
      obtain ⟨l1, l2, he, hr, h1, h2⟩ :=
        ih hk2 (fun z hz hzid => huniq z (List.mem_cons_of_mem j hz) hzid) hnd.2
      refine ⟨j :: l1, l2, by rw [List.cons_append, ← he], ?_, ?_, h2⟩
      · simp only [removeFirstID]
        rw [if_neg hj, hr]
        rfl
      · intro hmem
        rcases List.mem_cons.mp hmem with rfl | h
        · exact hj hid
        · exact h1 h

/-! ## Loop invariant and the matching-loop master lemma -/

/-- The invariant of the two heaps that the matching loop maintains:
every heap sequence is sorted by its comparator, holds no cancelled
record, holds only positive volumes, and no key occurs twice. -/
structure LoopInv (ob : OrderBook) : Prop where
  sortedBuy : ob.BuyOrders.Pairwise (fun a b => buyBefore (ob.recs a) (ob.recs b) = true)
  sortedSell : ob.SellOrders.Pairwise (fun a b => sellBefore (ob.recs a) (ob.recs b) = true)
  liveBuy : ∀ k ∈ ob.BuyOrders, (ob.recs k).Cancelled = false
  liveSell : ∀ k ∈ ob.SellOrders, (ob.recs k).Cancelled = false
  volBuy : ∀ k ∈ ob.BuyOrders, 0 < (ob.recs k).Volume
  volSell : ∀ k ∈ ob.SellOrders, 0 < (ob.recs k).Volume
  nodup : (ob.BuyOrders ++ ob.SellOrders).Nodup

/-- The book is uncrossed: no non-cancelled resting BUY has a price at or
above the price of any non-cancelled resting SELL. -/
def Uncrossed (ob : OrderBook) : Prop :=
  ∀ bk ∈ ob.BuyOrders, ∀ sk ∈ ob.SellOrders,
    (ob.recs bk).Cancelled = false → (ob.recs sk).Cancelled = false →
    (ob.recs bk).Price < (ob.recs sk).Price

/-- With an empty side the matching loop exits at once. -/
theorem matchLoop_nil {i : Int} {s : String} {h2 : Bool} {fuel : Nat} {ob : OrderBook}
    (h : ob.SellOrders = [] ∨ ob.BuyOrders = []) :
    matchLoop i s h2 fuel ob = ob := by
  cases fuel with
  | zero => rfl
  | succ n =>
    rcases h with h | h
    · cases hB : ob.BuyOrders <;> simp [matchLoop, h, hB]
    · cases hS : ob.SellOrders <;> simp [matchLoop, h, hS]

/-- One unfolding of the loop at live tops: either the tops cross and one
trade iteration runs, or the loop exits. -/
theorem matchLoop_cons_live {i : Int} {s : String} {h2 : Bool} {fuel : Nat} {ob : OrderBook}
    {sk bk : Nat} {srest brest : List Nat}
    (hS : ob.SellOrders = sk :: srest) (hB : ob.BuyOrders = bk :: brest)
    (hsc : (ob.recs sk).Cancelled = false) (hbc : (ob.recs bk).Cancelled = false) :
    matchLoop i s h2 (fuel + 1) ob =
      if (ob.recs sk).Price ≤ (ob.recs bk).Price then
        matchLoop i s h2 fuel (tradeStep i s h2 ob sk bk srest brest)
      else ob := by
  simp only [matchLoop, hS, hB]
  rw [if_neg (by simp [hsc]), if_neg (by simp [hbc])]

/-- Everything the matching loop guarantees about its result, relative to
the state it started from. -/
structure LoopRes (ob ob2 : OrderBook) : Prop where
  inv : LoopInv ob2
  unx : Uncrossed ob2
  subB : ob2.BuyOrders.Sublist ob.BuyOrders
  subS : ob2.SellOrders.Sublist ob.SellOrders
  nk : ob2.nextKey = ob.nextKey
  ck : ob2.clock = ob.clock
  oi : ob2.Orders = ob.Orders
  shape : ∀ k, sameShape (ob2.recs k) (ob.recs k)
  outside : ∀ k, k ∉ ob.BuyOrders → k ∉ ob.SellOrders → ob2.recs k = ob.recs k
  dropB : ∀ k ∈ ob.BuyOrders, k ∉ ob2.BuyOrders → (ob2.recs k).Volume ≤ 0
  dropS : ∀ k ∈ ob.SellOrders, k ∉ ob2.SellOrders → (ob2.recs k).Volume ≤ 0
  volLe : ∀ k, (ob2.recs k).Volume ≤ (ob.recs k).Volume

/-- The reflexive result bundle, for the loop exits that return the
state unchanged. -/
theorem loopRes_refl {ob : OrderBook} (hinv : LoopInv ob) (hunx : Uncrossed ob) :
    LoopRes ob ob where
  inv := hinv
  unx := hunx
  subB := List.Sublist.refl _
  subS := List.Sublist.refl _
  nk := rfl
  ck := rfl
  oi := rfl
  shape := fun _ => sameShape_refl _
  outside := fun _ _ _ => rfl
  dropB := fun k hk hk2 => absurd hk hk2
  dropS := fun k hk hk2 => absurd hk hk2
  volLe := fun _ => le_refl _

theorem tradeStep_recs_bk {i : Int} {s : String} {h2 : Bool} {ob : OrderBook}
    {sk bk : Nat} {srest brest : List Nat} :
    (tradeStep i s h2 ob sk bk srest brest).recs bk
      = { ob.recs bk with
          Volume := (ob.recs bk).Volume - min (ob.recs sk).Volume (ob.recs bk).Volume } := by
  simp [tradeStep, setRec]

theorem tradeStep_recs_shape {i : Int} {s : String} {h2 : Bool} {ob : OrderBook}
    {sk bk : Nat} {srest brest : List Nat} (k : Nat) :
    sameShape ((tradeStep i s h2 ob sk bk srest brest).recs k) (ob.recs k) := by
  simp only [tradeStep, setRec]
  by_cases hb : k = bk
  · subst hb; simp [sameShape]
  · rw [if_neg hb]
    by_cases hs : k = sk
    · subst hs; simp [sameShape]
    · rw [if_neg hs]
      exact sameShape_refl _

theorem tradeStep_recs_other {i : Int} {s : String} {h2 : Bool} {ob : OrderBook}
    {sk bk : Nat} {srest brest : List Nat} {k : Nat} (h1 : k ≠ sk) (h2k : k ≠ bk) :
    (tradeStep i s h2 ob sk bk srest brest).recs k = ob.recs k := by
  simp [tradeStep, setRec, h1, h2k]

/-- Every trade iteration pops at least one heap top: the smaller of the
two volumes is traded away entirely. -/
theorem tradeStep_pop {i : Int} {s : String} {h2 : Bool} {ob : OrderBook}
    {sk bk : Nat} {srest brest : List Nat} :
    ((tradeStep i s h2 ob sk bk srest brest).recs bk).Volume = 0
    ∨ ((tradeStep i s h2 ob sk bk srest brest).recs sk).Volume = 0 := by
  by_cases hmb : (ob.recs bk).Volume ≤ (ob.recs sk).Volume
  · left
    rw [tradeStep_recs_bk]
    simp [min_eq_right hmb]
  · right
    have hms : (ob.recs sk).Volume ≤ (ob.recs bk).Volume := le_of_not_le hmb
    by_cases hsb : sk = bk
    · subst hsb
      rw [tradeStep_recs_bk]
      simp
    · simp only [tradeStep, setRec]
      rw [if_neg hsb]
      simp [min_eq_left hms]

theorem tradeStep_sells {i : Int} {s : String} {h2 : Bool} {ob : OrderBook}
    {sk bk : Nat} {srest brest : List Nat} :
    (tradeStep i s h2 ob sk bk srest brest).SellOrders
      = (if ((tradeStep i s h2 ob sk bk srest brest).recs sk).Volume = 0
         then srest else ob.SellOrders) := by
  simp only [tradeStep]

theorem tradeStep_buys {i : Int} {s : String} {h2 : Bool} {ob : OrderBook}
    {sk bk : Nat} {srest brest : List Nat} :
    (tradeStep i s h2 ob sk bk srest brest).BuyOrders
      = (if ((tradeStep i s h2 ob sk bk srest brest).recs bk).Volume = 0
         then brest else ob.BuyOrders) := by
  simp only [tradeStep]

theorem tradeStep_fields {i : Int} {s : String} {h2 : Bool} {ob : OrderBook}
    {sk bk : Nat} {srest brest : List Nat} :
    (tradeStep i s h2 ob sk bk srest brest).nextKey = ob.nextKey
    ∧ (tradeStep i s h2 ob sk bk srest brest).clock = ob.clock
    ∧ (tradeStep i s h2 ob sk bk srest brest).Orders = ob.Orders := by
  exact ⟨rfl, rfl, rfl⟩

/-- The master lemma of the matching loop: with enough fuel (one more
than the combined heap length, since every iteration pops at least one
element) the loop preserves the heap invariant and leaves the book
uncrossed; the result heaps are sub-sequences of the originals, stamps,
the index, identity fields and prices are untouched, records outside the
heaps are untouched, and every key the loop dropped was filled to
volume zero. -/
theorem matchLoop_master (i : Int) (s : String) (h2 : Bool) :
    ∀ (fuel : Nat) (ob : OrderBook), LoopInv ob →
      ob.SellOrders.length + ob.BuyOrders.length < fuel →
      LoopRes ob (matchLoop i s h2 fuel ob) := by
  intro fuel
  induction fuel with
  | zero => intro ob _ hlen; exact absurd hlen (Nat.not_lt_zero _)
  | succ fuel ih =>
    intro ob hinv hlen
    cases hS : ob.SellOrders with
    | nil =>
      rw [matchLoop_nil (Or.inl hS)]
      refine loopRes_refl hinv ?_
      intro bk hbk sk hsk _ _
      rw [hS] at hsk
      cases hsk
    | cons sk srest =>
      cases hB : ob.BuyOrders with
      | nil =>
        rw [matchLoop_nil (Or.inr hB)]
        refine loopRes_refl hinv ?_
        intro bk hbk sk2 hsk _ _
        rw [hB] at hbk
        cases hbk
      | cons bk brest =>
        have hskm : sk ∈ ob.SellOrders := by rw [hS]; exact List.mem_cons_self _ _
        have hbkm : bk ∈ ob.BuyOrders := by rw [hB]; exact List.mem_cons_self _ _
        have hsc := hinv.liveSell sk hskm
        have hbc := hinv.liveBuy bk hbkm
        have hdisj : ob.BuyOrders.Disjoint ob.SellOrders :=
          List.disjoint_of_nodup_append hinv.nodup
        have hndB : ob.BuyOrders.Nodup :=
          hinv.nodup.sublist (List.sublist_append_left _ _)
        have hndS : ob.SellOrders.Nodup :=
          hinv.nodup.sublist (List.sublist_append_right _ _)
        rw [matchLoop_cons_live hS hB hsc hbc]
        by_cases hpx : (ob.recs sk).Price ≤ (ob.recs bk).Price
        · rw [if_pos hpx]
          -- the trade iteration
          have hsne : sk ∉ ob.BuyOrders := fun h => hdisj h hskm
          have hbne : bk ∉ ob.SellOrders := fun h => hdisj hbkm h
          have hbkbrest : bk ∉ brest := by
            rw [hB] at hndB
            exact (List.nodup_cons.mp hndB).1
          have hsksrest : sk ∉ srest := by
            rw [hS] at hndS
            exact (List.nodup_cons.mp hndS).1
          set obT := tradeStep i s h2 ob sk bk srest brest with hobT
          have hshapeT : ∀ k, sameShape (obT.recs k) (ob.recs k) :=
            fun k => tradeStep_recs_shape k
          have hsubTB : obT.BuyOrders.Sublist ob.BuyOrders := by
            rw [tradeStep_buys]
            split
            · rw [hB]; exact List.Sublist.cons bk (List.Sublist.refl brest)
            · exact List.Sublist.refl _
          have hsubTS : obT.SellOrders.Sublist ob.SellOrders := by
            rw [tradeStep_sells]
            split
            · rw [hS]; exact List.Sublist.cons sk (List.Sublist.refl srest)
            · exact List.Sublist.refl _
          -- LoopInv of the traded state
          have hinvT : LoopInv obT := by
            refine ⟨?_, ?_, ?_, ?_, ?_, ?_, ?_⟩
            · refine List.Pairwise.sublist hsubTB ?_
              refine hinv.sortedBuy.imp ?_
              intro a b hab
              rw [buyBefore_congr (hshapeT a) (hshapeT b)]
              exact hab
            · refine List.Pairwise.sublist hsubTS ?_
              refine hinv.sortedSell.imp ?_
              intro a b hab
              rw [sellBefore_congr (hshapeT a) (hshapeT b)]
              exact hab
            · intro k hk
              rw [(hshapeT k).2.2.2.2.2]
              exact hinv.liveBuy k (hsubTB.subset hk)
            · intro k hk
              rw [(hshapeT k).2.2.2.2.2]
              exact hinv.liveSell k (hsubTS.subset hk)
            · intro k hk
              have hkB : k ∈ ob.BuyOrders := hsubTB.subset hk
              by_cases hkbk : k = bk
              · subst hkbk
                have hvol0 : (obT.recs k).Volume ≠ 0 := by
                  intro h0
                  rw [tradeStep_buys, if_pos h0] at hk
                  exact hbkbrest hk
                have : (obT.recs k).Volume
                    = (ob.recs k).Volume - min (ob.recs sk).Volume (ob.recs k).Volume := by
                  rw [hobT, tradeStep_recs_bk]
                have hle : min (ob.recs sk).Volume (ob.recs k).Volume ≤ (ob.recs k).Volume :=
                  min_le_right _ _
                omega
              · have hksk : k ≠ sk := fun h => hsne (h ▸ hkB)
                rw [tradeStep_recs_other hksk hkbk]
                exact hinv.volBuy k hkB
            · intro k hk
              have hkS : k ∈ ob.SellOrders := hsubTS.subset hk
              by_cases hksk : k = sk
              · subst hksk
                have hvol0 : (obT.recs k).Volume ≠ 0 := by
                  intro h0
                  rw [tradeStep_sells, if_pos h0] at hk
                  exact hsksrest hk
                by_cases hkbk : k = bk
                · subst hkbk
                  have : (obT.recs k).Volume
                      = (ob.recs k).Volume - min (ob.recs k).Volume (ob.recs k).Volume := by
                    rw [hobT, tradeStep_recs_bk]
                  simp at this
                  omega
                · have : (obT.recs k).Volume
                      = (ob.recs k).Volume - min (ob.recs k).Volume (ob.recs bk).Volume := by
                    rw [hobT]
                    simp only [tradeStep, setRec]
                    rw [if_neg hkbk]
                    simp
                  have hle : min (ob.recs k).Volume (ob.recs bk).Volume ≤ (ob.recs k).Volume :=
                    min_le_left _ _
                  omega
              · have hkbk : k ≠ bk := fun h => hbne (h ▸ hkS)
                rw [tradeStep_recs_other hksk hkbk]
                exact hinv.volSell k hkS
            · exact hinv.nodup.sublist (List.Sublist.append hsubTB hsubTS)
          -- fuel decreases: at least one top is popped
          have hlenT : obT.SellOrders.length + obT.BuyOrders.length < fuel := by
            have hpop := @tradeStep_pop i s h2 ob sk bk srest brest
            have hSlen : ob.SellOrders.length = srest.length + 1 := by rw [hS]; rfl
            have hBlen : ob.BuyOrders.length = brest.length + 1 := by rw [hB]; rfl
            have h1 : obT.SellOrders.length ≤ ob.SellOrders.length := hsubTS.length_le
            have h2l : obT.BuyOrders.length ≤ ob.BuyOrders.length := hsubTB.length_le
            rcases hpop with hp | hp
            · have : obT.BuyOrders.length = brest.length := by
                rw [tradeStep_buys, if_pos hp]
              omega
            · have : obT.SellOrders.length = srest.length := by
                rw [tradeStep_sells, if_pos hp]
              omega
          have hres := ih obT hinvT hlenT
          have hvolLeT : ∀ k, (obT.recs k).Volume ≤ (ob.recs k).Volume := by
            intro k
            have hm : 0 ≤ min (ob.recs sk).Volume (ob.recs bk).Volume :=
              le_min (le_of_lt (hinv.volSell sk hskm)) (le_of_lt (hinv.volBuy bk hbkm))
            by_cases hkbk : k = bk
            · subst hkbk
              rw [tradeStep_recs_bk]
              simp only
              omega
            · by_cases hksk : k = sk
              · subst hksk
                have : (obT.recs k).Volume
                    = (ob.recs k).Volume - min (ob.recs k).Volume (ob.recs bk).Volume := by
                  rw [hobT]
                  simp only [tradeStep, setRec]
                  rw [if_neg hkbk]
                  simp
                omega
              · rw [tradeStep_recs_other hksk hkbk]
          -- compose the step with the recursive result
          refine ⟨hres.inv, hres.unx, hres.subB.trans hsubTB, hres.subS.trans hsubTS,
            hres.nk, hres.ck, hres.oi,
            fun k => sameShape_trans (hres.shape k) (hshapeT k), ?_, ?_, ?_,
            fun k => (hres.volLe k).trans (hvolLeT k)⟩
          · intro k hkB hkS
            rw [hres.outside k (fun h => hkB (hsubTB.subset h)) (fun h => hkS (hsubTS.subset h))]
            exact tradeStep_recs_other (fun h => hkS (h ▸ hskm)) (fun h => hkB (h ▸ hbkm))
          · intro k hk hk2
            by_cases hkT : k ∈ obT.BuyOrders
            · exact hres.dropB k hkT hk2
            · have hkbk : k = bk := by
                by_contra hne
                have : obT.BuyOrders = brest ∨ obT.BuyOrders = ob.BuyOrders := by
                  rw [tradeStep_buys]; split
                  · exact Or.inl rfl
                  · exact Or.inr rfl
                rcases this with h | h
                · rw [h] at hkT
                  rw [hB] at hk
                  rcases List.mem_cons.mp hk with h3 | h3
                  · exact hne h3
                  · exact hkT h3
                · rw [h] at hkT
                  exact hkT hk
              subst hkbk
              have hp0 : (obT.recs k).Volume = 0 := by
                by_contra hne
                rw [tradeStep_buys, if_neg hne] at hkT
                exact hkT hk
              have heq : (matchLoop i s h2 fuel obT).recs k = obT.recs k := by
                refine hres.outside k hkT ?_
                intro h
                exact hbne (hsubTS.subset h)
              rw [heq, hp0]
          · intro k hk hk2
            by_cases hkT : k ∈ obT.SellOrders
            · exact hres.dropS k hkT hk2
            · have hksk : k = sk := by
                by_contra hne
                have : obT.SellOrders = srest ∨ obT.SellOrders = ob.SellOrders := by
                  rw [tradeStep_sells]; split
                  · exact Or.inl rfl
                  · exact Or.inr rfl
                rcases this with h | h
                · rw [h] at hkT
                  rw [hS] at hk
                  rcases List.mem_cons.mp hk with h3 | h3
                  · exact hne h3
                  · exact hkT h3
                · rw [h] at hkT
                  exact hkT hk
              subst hksk
              have hp0 : (obT.recs k).Volume = 0 := by
                by_contra hne
                rw [tradeStep_sells, if_neg hne] at hkT
                exact hkT hk
              have heq : (matchLoop i s h2 fuel obT).recs k = obT.recs k := by
                refine hres.outside k ?_ hkT
                intro h
                exact hsne (hsubTB.subset h)
              rw [heq, hp0]
        · rw [if_neg hpx]
          refine loopRes_refl hinv ?_
          intro bk2 hbk2 sk2 hsk2 _ _
          have h1 : (ob.recs bk2).Price ≤ (ob.recs bk).Price := by
            rw [hB] at hbk2
            rcases List.mem_cons.mp hbk2 with rfl | h
            · exact le_refl _
            · have := hinv.sortedBuy
              rw [hB, List.pairwise_cons] at this
              exact price_le_of_buyBefore (this.1 bk2 h)
          have h2p : (ob.recs sk).Price ≤ (ob.recs sk2).Price := by
            rw [hS] at hsk2
            rcases List.mem_cons.mp hsk2 with rfl | h
            · exact le_refl _
            · have := hinv.sortedSell
              rw [hS, List.pairwise_cons] at this
              exact price_le_of_sellBefore (this.1 sk2 h)
          have h3 : (ob.recs bk).Price < (ob.recs sk).Price := lt_of_not_le hpx
          omega

/-- Sorted insertion is a permutation of consing. -/
theorem insertByKey_perm (lt : Nat → Nat → Bool) (x : Nat) (l : List Nat) :
    List.Perm (insertByKey lt x l) (x :: l) := by
  induction l with
  | nil => exact List.Perm.refl _
  | cons y ys ih =>
    simp only [insertByKey]
    split
    · exact List.Perm.refl _
    · exact List.Perm.trans (List.Perm.cons y ih) (List.Perm.swap x y ys)

/-- On a live uncrossed book the matching loop does nothing. -/
theorem matchLoop_id {i : Int} {s : String} {h2 : Bool} {fuel : Nat} {ob : OrderBook}
    (hlb : ∀ k ∈ ob.BuyOrders, (ob.recs k).Cancelled = false)
    (hls : ∀ k ∈ ob.SellOrders, (ob.recs k).Cancelled = false)
    (hun : Uncrossed ob) : matchLoop i s h2 fuel ob = ob := by
  cases fuel with
  | zero => rfl
  | succ n =>
    cases hS : ob.SellOrders with
    | nil => exact matchLoop_nil (Or.inl hS)
    | cons sk srest =>
      cases hB : ob.BuyOrders with
      | nil => exact matchLoop_nil (Or.inr hB)
      | cons bk brest =>
        have hskm : sk ∈ ob.SellOrders := by rw [hS]; exact List.mem_cons_self _ _
        have hbkm : bk ∈ ob.BuyOrders := by rw [hB]; exact List.mem_cons_self _ _
        rw [matchLoop_cons_live hS hB (hls sk hskm) (hlb bk hbkm)]
        rw [if_neg (not_le_of_lt (hun bk hbkm sk hskm (hlb bk hbkm) (hls sk hskm)))]

/-- On a live uncrossed book `matchOrders` does nothing. -/
theorem matchOrders_id {ob : OrderBook} {i : Int} {s : String}
    (hlb : ∀ k ∈ ob.BuyOrders, (ob.recs k).Cancelled = false)
    (hls : ∀ k ∈ ob.SellOrders, (ob.recs k).Cancelled = false)
    (hun : Uncrossed ob) : ob.matchOrders i s = ob :=
  matchLoop_id hlb hls hun

/-- `matchOrders` runs its loop with sufficient fuel, so the master lemma
applies unconditionally. -/
theorem matchOrders_master {ob : OrderBook} (i : Int) (s : String) (hinv : LoopInv ob) :
    LoopRes ob (ob.matchOrders i s) := by
  unfold OrderBook.matchOrders
  exact matchLoop_master i s _ _ ob hinv (by omega)

/-! ## The full book invariant -/

/-- The invariant every reachable book satisfies: the heap invariant,
allocation bounds, side consistency, strictly increasing distinct
timestamps, and the mutual consistency of the `Orders` index with the
heaps (spec invariants 1, 2 and 4). -/
structure BookInv (ob : OrderBook) : Prop where
  loop : LoopInv ob
  buyAlloc : ∀ k ∈ ob.BuyOrders, k < ob.nextKey
  sellAlloc : ∀ k ∈ ob.SellOrders, k < ob.nextKey
  buySide : ∀ k ∈ ob.BuyOrders, (ob.recs k).Side = "BUY"
  sellSide : ∀ k ∈ ob.SellOrders, (ob.recs k).Side = "SELL"
  tsLt : ∀ k, k < ob.nextKey → (ob.recs k).Inserted < ob.clock
  tsUniq : ∀ k1, k1 < ob.nextKey → ∀ k2, k2 < ob.nextKey → k1 ≠ k2 →
    (ob.recs k1).Inserted ≠ (ob.recs k2).Inserted
  idxAlloc : ∀ oid k, ob.Orders oid = some k → k < ob.nextKey ∧ (ob.recs k).ID = oid
  listIdx : ∀ k, k ∈ ob.BuyOrders ∨ k ∈ ob.SellOrders → ob.Orders ((ob.recs k).ID) = some k
  liveIn : ∀ oid k, ob.Orders oid = some k → (ob.recs k).Cancelled = false →
    0 < (ob.recs k).Volume →
    ((ob.recs k).Side = "BUY" → k ∈ ob.BuyOrders) ∧
    ((ob.recs k).Side = "SELL" → k ∈ ob.SellOrders)

/-- Transport of the full invariant across a matching-loop run. -/
theorem inv_of_loopRes {ob ob2 : OrderBook} (hinv : BookInv ob) (hres : LoopRes ob ob2) :
    BookInv ob2 ∧ Uncrossed ob2 := by
  refine ⟨⟨hres.inv, ?_, ?_, ?_, ?_, ?_, ?_, ?_, ?_, ?_⟩, hres.unx⟩
  · intro k hk
    rw [hres.nk]
    exact hinv.buyAlloc k (hres.subB.subset hk)
  · intro k hk
    rw [hres.nk]
    exact hinv.sellAlloc k (hres.subS.subset hk)
  · intro k hk
    rw [(hres.shape k).2.2.1]
    exact hinv.buySide k (hres.subB.subset hk)
  · intro k hk
    rw [(hres.shape k).2.2.1]
    exact hinv.sellSide k (hres.subS.subset hk)
  · intro k hk
    rw [(hres.shape k).2.2.2.2.1, hres.ck]
    exact hinv.tsLt k (hres.nk ▸ hk)
  · intro k1 h1 k2 h2 hne
    rw [(hres.shape k1).2.2.2.2.1, (hres.shape k2).2.2.2.2.1]
    exact hinv.tsUniq k1 (hres.nk ▸ h1) k2 (hres.nk ▸ h2) hne
  · intro oid k hk
    rw [hres.oi] at hk
    obtain ⟨h1, h2⟩ := hinv.idxAlloc oid k hk
    exact ⟨hres.nk ▸ h1, ((hres.shape k).1).trans h2⟩
  · intro k hk
    rw [hres.oi, (hres.shape k).1]
    refine hinv.listIdx k ?_
    rcases hk with h | h
    · exact Or.inl (hres.subB.subset h)
    · exact Or.inr (hres.subS.subset h)
  · intro oid k hk hcan hvol
    rw [hres.oi] at hk
    have hcan0 : (ob.recs k).Cancelled = false := ((hres.shape k).2.2.2.2.2).symm.trans hcan
    have hvol0 : 0 < (ob.recs k).Volume := lt_of_lt_of_le hvol (hres.volLe k)
    obtain ⟨hbuy, hsell⟩ := hinv.liveIn oid k hk hcan0 hvol0
    constructor
    · intro hside
      have hmem : k ∈ ob.BuyOrders := hbuy (((hres.shape k).2.2.1).symm.trans hside)
      by_contra hnot
      have := hres.dropB k hmem hnot
      omega
    · intro hside
      have hmem : k ∈ ob.SellOrders := hsell (((hres.shape k).2.2.1).symm.trans hside)
      by_contra hnot
      have := hres.dropS k hmem hnot
      omega

/-! ## Operation-level invariant preservation -/

/-- A book is good when it satisfies the full invariant and is uncrossed. -/
def Good (ob : OrderBook) : Prop := BookInv ob ∧ Uncrossed ob

/-- The state `Insert` hands to the matching loop: the record stamped and
allocated, pushed into the heap of its side, and registered in the index. -/
def pushState (ob : OrderBook) (order : Order) : OrderBook :=
  let o := { order with Inserted := ob.clock }
  let k := ob.nextKey
  let ob1 : OrderBook :=
    { ob with recs := setRec ob.recs k o, nextKey := k + 1, clock := ob.clock + 1 }
  let ob2 := ob1.insertOrderIntoHeap k
  { ob2 with Orders := fun i => if i = o.ID then some k else ob2.Orders i }

/-- `Insert` is the matching loop run on the pushed state. -/
theorem Insert_eq_push (ob : OrderBook) (order : Order) :
    ob.Insert order = (pushState ob order).matchOrders order.ID order.Side := rfl

theorem pushState_fields (ob : OrderBook) (order : Order) :
    (pushState ob order).nextKey = ob.nextKey + 1
    ∧ (pushState ob order).clock = ob.clock + 1
    ∧ (pushState ob order).recs
        = setRec ob.recs ob.nextKey ({ order with Inserted := ob.clock })
    ∧ (pushState ob order).Orders
        = (fun i => if i = order.ID then some ob.nextKey else ob.Orders i)
    ∧ (pushState ob order).Trades = ob.Trades := by
  dsimp only [pushState, OrderBook.insertOrderIntoHeap]
  split
  · exact ⟨rfl, rfl, rfl, rfl, rfl⟩
  · split
    · exact ⟨rfl, rfl, rfl, rfl, rfl⟩
    · exact ⟨rfl, rfl, rfl, rfl, rfl⟩

theorem pushState_buy {ob : OrderBook} {order : Order} (h : order.Side = "BUY") :
    (pushState ob order).BuyOrders
      = insertByKey
          (fun a b => buyBefore ((pushState ob order).recs a) ((pushState ob order).recs b))
          ob.nextKey ob.BuyOrders
    ∧ (pushState ob order).SellOrders = ob.SellOrders := by
  have hcond : ((setRec ob.recs ob.nextKey ({ order with Inserted := ob.clock }))
      ob.nextKey).Side = "BUY" := by
    simp [setRec, h]
  dsimp only [pushState, OrderBook.insertOrderIntoHeap]
  rw [if_pos hcond]
  exact ⟨rfl, rfl⟩

theorem pushState_sell {ob : OrderBook} {order : Order} (h : order.Side = "SELL") :
    (pushState ob order).SellOrders
      = insertByKey
          (fun a b => sellBefore ((pushState ob order).recs a) ((pushState ob order).recs b))
          ob.nextKey ob.SellOrders
    ∧ (pushState ob order).BuyOrders = ob.BuyOrders := by
  have hcond1 : ¬((setRec ob.recs ob.nextKey ({ order with Inserted := ob.clock }))
      ob.nextKey).Side = "BUY" := by
    simp [setRec, h]
  have hcond2 : ((setRec ob.recs ob.nextKey ({ order with Inserted := ob.clock }))
      ob.nextKey).Side = "SELL" := by
    simp [setRec, h]
  dsimp only [pushState, OrderBook.insertOrderIntoHeap]
  rw [if_neg hcond1, if_pos hcond2]
  exact ⟨rfl, rfl⟩

theorem pushState_other {ob : OrderBook} {order : Order}
    (h1 : ¬order.Side = "BUY") (h2 : ¬order.Side = "SELL") :
    (pushState ob order).BuyOrders = ob.BuyOrders
    ∧ (pushState ob order).SellOrders = ob.SellOrders := by
  have hcond1 : ¬((setRec ob.recs ob.nextKey ({ order with Inserted := ob.clock }))
      ob.nextKey).Side = "BUY" := by
    simp [setRec, h1]
  have hcond2 : ¬((setRec ob.recs ob.nextKey ({ order with Inserted := ob.clock }))
      ob.nextKey).Side = "SELL" := by
    simp [setRec, h2]
  dsimp only [pushState, OrderBook.insertOrderIntoHeap]
  rw [if_neg hcond1, if_neg hcond2]
  exact ⟨rfl, rfl⟩

/-- Pushing a fresh live positive-volume order preserves the full book
invariant (state before the matching loop of `Insert` runs). -/
theorem bookInv_push {ob : OrderBook} {order : Order} (hinv : BookInv ob)
    (hvol : 0 < order.Volume) (hcan : order.Cancelled = false)
    (hfresh : ob.Orders order.ID = none) :
    BookInv (pushState ob order) := by
  obtain ⟨hnk, hck, hrecs, hord, htr⟩ := pushState_fields ob order
  have hrk : (pushState ob order).recs ob.nextKey = { order with Inserted := ob.clock } := by
    rw [hrecs]; simp [setRec]
  have hro : ∀ j, j ≠ ob.nextKey → (pushState ob order).recs j = ob.recs j := by
    intro j hj; rw [hrecs]; simp [setRec, hj]
  have hrkIns : ((pushState ob order).recs ob.nextKey).Inserted = ob.clock := by rw [hrk]
  have hrkVol : ((pushState ob order).recs ob.nextKey).Volume = order.Volume := by rw [hrk]
  have hrkCan : ((pushState ob order).recs ob.nextKey).Cancelled = order.Cancelled := by
    rw [hrk]
  have hrkSide : ((pushState ob order).recs ob.nextKey).Side = order.Side := by rw [hrk]
  have hrkID : ((pushState ob order).recs ob.nextKey).ID = order.ID := by rw [hrk]
  have hneB : ∀ j ∈ ob.BuyOrders, j ≠ ob.nextKey :=
    fun j hj => Nat.ne_of_lt (hinv.buyAlloc j hj)
  have hneS : ∀ j ∈ ob.SellOrders, j ≠ ob.nextKey :=
    fun j hj => Nat.ne_of_lt (hinv.sellAlloc j hj)
  have hknB : ob.nextKey ∉ ob.BuyOrders := fun h => (hneB _ h) rfl
  have hknS : ob.nextKey ∉ ob.SellOrders := fun h => (hneS _ h) rfl
  -- facts independent of the side through which the order enters
  have htsLt : ∀ j, j < (pushState ob order).nextKey →
      ((pushState ob order).recs j).Inserted < (pushState ob order).clock := by
    intro j hj
    rw [hnk] at hj
    rw [hck]
    by_cases hjk : j = ob.nextKey
    · subst hjk; rw [hrkIns]; omega
    · rw [hro j hjk]
      have := hinv.tsLt j (by omega)
      omega
  have htsUniq : ∀ j1, j1 < (pushState ob order).nextKey →
      ∀ j2, j2 < (pushState ob order).nextKey → j1 ≠ j2 →
      ((pushState ob order).recs j1).Inserted ≠ ((pushState ob order).recs j2).Inserted := by
    intro j1 h1 j2 h2 hne
    rw [hnk] at h1 h2
    by_cases hk1 : j1 = ob.nextKey
    · subst hk1
      have hk2 : j2 ≠ ob.nextKey := fun h => hne h.symm
      rw [hrkIns, hro j2 hk2]
      have := hinv.tsLt j2 (by omega)
      omega
    · by_cases hk2 : j2 = ob.nextKey
      · subst hk2
        rw [hro j1 hk1, hrkIns]
        have := hinv.tsLt j1 (by omega)
        omega
      · rw [hro j1 hk1, hro j2 hk2]
        exact hinv.tsUniq j1 (by omega) j2 (by omega) hne
  have hidxAlloc : ∀ oid j, (pushState ob order).Orders oid = some j →
      j < (pushState ob order).nextKey ∧ ((pushState ob order).recs j).ID = oid := by
    intro oid j hj
    simp only [hord] at hj
    rw [hnk]
    by_cases hoid : oid = order.ID
    · rw [if_pos hoid] at hj
      have hje : j = ob.nextKey := by
        injection hj with h
        exact h.symm
      subst hje
      refine ⟨by omega, ?_⟩
      rw [hrkID]
      exact hoid.symm
    · rw [if_neg hoid] at hj
      obtain ⟨ha, hb⟩ := hinv.idxAlloc oid j hj
      rw [hro j (Nat.ne_of_lt ha)]
      exact ⟨by omega, hb⟩
  have hIDold : ∀ j, j ∈ ob.BuyOrders ∨ j ∈ ob.SellOrders → (ob.recs j).ID ≠ order.ID := by
    intro j hj habs
    have := hinv.listIdx j hj
    rw [habs, hfresh] at this
    cases this
  have hordOld : ∀ j, j ∈ ob.BuyOrders ∨ j ∈ ob.SellOrders →
      (pushState ob order).Orders ((pushState ob order).recs j).ID = some j := by
    intro j hj
    have hjk : j ≠ ob.nextKey := by
      rcases hj with h | h
      · exact hneB j h
      · exact hneS j h
    rw [hro j hjk]
    simp only [hord]
    rw [if_neg (hIDold j hj)]
    exact hinv.listIdx j hj
  -- case analysis on the side of the incoming order
  by_cases hbuy : order.Side = "BUY"
  · obtain ⟨hBeq, hSeq⟩ := @pushState_buy ob order hbuy
    have hconn : ∀ y ∈ ob.BuyOrders,
        buyBefore ((pushState ob order).recs ob.nextKey) ((pushState ob order).recs y) = true
        ∨ buyBefore ((pushState ob order).recs y) ((pushState ob order).recs ob.nextKey)
            = true := by
      intro y hy
      refine buyBefore_total ?_
      rw [hrkIns, hro y (hneB y hy)]
      have := hinv.tsLt y (hinv.buyAlloc y hy)
      omega
    have hpairs : ob.BuyOrders.Pairwise
        (fun a b => buyBefore ((pushState ob order).recs a) ((pushState ob order).recs b)
          = true) := by
      refine List.Pairwise.imp_of_mem ?_ hinv.loop.sortedBuy
      intro a b ha hb hab
      rw [hro a (hneB a ha), hro b (hneB b hb)]
      exact hab
    have hmemB : ∀ j, j ∈ (pushState ob order).BuyOrders ↔
        j = ob.nextKey ∨ j ∈ ob.BuyOrders := by
      intro j
      rw [hBeq]
      exact insertByKey_mem
    refine ⟨⟨?_, ?_, ?_, ?_, ?_, ?_, ?_⟩, ?_, ?_, ?_, ?_, htsLt, htsUniq, hidxAlloc, ?_, ?_⟩
    · rw [hBeq]
      exact insertByKey_pairwise (fun a b c => buyBefore_trans) hconn hpairs
    · rw [hSeq]
      refine List.Pairwise.imp_of_mem ?_ hinv.loop.sortedSell
      intro a b ha hb hab
      rw [hro a (hneS a ha), hro b (hneS b hb)]
      exact hab
    · intro j hj
      rcases (hmemB j).mp hj with rfl | hj2
      · rw [hrkCan]
        exact hcan
      · rw [hro j (hneB j hj2)]
        exact hinv.loop.liveBuy j hj2
    · intro j hj
      rw [hSeq] at hj
      rw [hro j (hneS j hj)]
      exact hinv.loop.liveSell j hj
    · intro j hj
      rcases (hmemB j).mp hj with rfl | hj2
      · rw [hrkVol]
        exact hvol
      · rw [hro j (hneB j hj2)]
        exact hinv.loop.volBuy j hj2
    · intro j hj
      rw [hSeq] at hj
      rw [hro j (hneS j hj)]
      exact hinv.loop.volSell j hj
    · rw [hBeq, hSeq]
      have hperm : List.Perm
          (insertByKey (fun a b => buyBefore ((pushState ob order).recs a)
            ((pushState ob order).recs b)) ob.nextKey ob.BuyOrders ++ ob.SellOrders)
          (ob.nextKey :: (ob.BuyOrders ++ ob.SellOrders)) := by
        have h1 := (insertByKey_perm (fun a b => buyBefore ((pushState ob order).recs a)
          ((pushState ob order).recs b)) ob.nextKey ob.BuyOrders).append_right ob.SellOrders
        rw [List.cons_append] at h1
        exact h1
      refine (hperm.nodup_iff).mpr ?_
      rw [List.nodup_cons]
      refine ⟨?_, hinv.loop.nodup⟩
      intro h
      rcases List.mem_append.mp h with h | h
      · exact hknB h
      · exact hknS h
    · intro j hj
      rw [hnk]
      rcases (hmemB j).mp hj with rfl | hj2
      · omega
      · have := hinv.buyAlloc j hj2
        omega
    · intro j hj
      rw [hSeq] at hj
      rw [hnk]
      have := hinv.sellAlloc j hj
      omega
    · intro j hj
      rcases (hmemB j).mp hj with rfl | hj2
      · rw [hrkSide]
        exact hbuy
      · rw [hro j (hneB j hj2)]
        exact hinv.buySide j hj2
    · intro j hj
      rw [hSeq] at hj
      rw [hro j (hneS j hj)]
      exact hinv.sellSide j hj
    · intro j hj
      rcases hj with hj | hj
      · rcases (hmemB j).mp hj with rfl | hj2
        · rw [hrkID, hord]
          simp
        · exact hordOld j (Or.inl hj2)
      · rw [hSeq] at hj
        exact hordOld j (Or.inr hj)
    · intro oid j hj hcan2 hvol2
      simp only [hord] at hj
      by_cases hoid : oid = order.ID
      · rw [if_pos hoid] at hj
        have hje : j = ob.nextKey := by
          injection hj with h
          exact h.symm
        subst hje
        constructor
        · intro _
          exact (hmemB ob.nextKey).mpr (Or.inl rfl)
        · intro hside
          rw [hrkSide, hbuy] at hside
          exact absurd hside (by decide)
      · rw [if_neg hoid] at hj
        have hja := hinv.idxAlloc oid j hj
        have hjk : j ≠ ob.nextKey := Nat.ne_of_lt hja.1
        rw [hro j hjk] at hcan2 hvol2 ⊢
        obtain ⟨hb, hs⟩ := hinv.liveIn oid j hj hcan2 hvol2
        constructor
        · intro hside
          exact (hmemB j).mpr (Or.inr (hb hside))
        · intro hside
          rw [hSeq]
          exact hs hside
  · by_cases hsell : order.Side = "SELL"
    · obtain ⟨hSeq, hBeq⟩ := @pushState_sell ob order hsell
      have hconn : ∀ y ∈ ob.SellOrders,
          sellBefore ((pushState ob order).recs ob.nextKey) ((pushState ob order).recs y)
            = true
          ∨ sellBefore ((pushState ob order).recs y) ((pushState ob order).recs ob.nextKey)
              = true := by
        intro y hy
        refine sellBefore_total ?_
        rw [hrkIns, hro y (hneS y hy)]
        have := hinv.tsLt y (hinv.sellAlloc y hy)
        omega
      have hpairs : ob.SellOrders.Pairwise
          (fun a b => sellBefore ((pushState ob order).recs a) ((pushState ob order).recs b)
            = true) := by
        refine List.Pairwise.imp_of_mem ?_ hinv.loop.sortedSell
        intro a b ha hb hab
        rw [hro a (hneS a ha), hro b (hneS b hb)]
        exact hab
      have hmemS : ∀ j, j ∈ (pushState ob order).SellOrders ↔
          j = ob.nextKey ∨ j ∈ ob.SellOrders := by
        intro j
        rw [hSeq]
        exact insertByKey_mem
      refine ⟨⟨?_, ?_, ?_, ?_, ?_, ?_, ?_⟩, ?_, ?_, ?_, ?_, htsLt, htsUniq, hidxAlloc, ?_, ?_⟩
      · rw [hBeq]
        refine List.Pairwise.imp_of_mem ?_ hinv.loop.sortedBuy
        intro a b ha hb hab
        rw [hro a (hneB a ha), hro b (hneB b hb)]
        exact hab
      · rw [hSeq]
        exact insertByKey_pairwise (fun a b c => sellBefore_trans) hconn hpairs
      · intro j hj
        rw [hBeq] at hj
        rw [hro j (hneB j hj)]
        exact hinv.loop.liveBuy j hj
      · intro j hj
        rcases (hmemS j).mp hj with rfl | hj2
        · rw [hrkCan]
          exact hcan
        · rw [hro j (hneS j hj2)]
          exact hinv.loop.liveSell j hj2
      · intro j hj
        rw [hBeq] at hj
        rw [hro j (hneB j hj)]
        exact hinv.loop.volBuy j hj
      · intro j hj
        rcases (hmemS j).mp hj with rfl | hj2
        · rw [hrkVol]
          exact hvol
        · rw [hro j (hneS j hj2)]
          exact hinv.loop.volSell j hj2
      · rw [hBeq, hSeq]
        have h1 := insertByKey_perm (fun a b => sellBefore ((pushState ob order).recs a)
          ((pushState ob order).recs b)) ob.nextKey ob.SellOrders
        have hperm : List.Perm
            (ob.BuyOrders ++ insertByKey (fun a b => sellBefore ((pushState ob order).recs a)
              ((pushState ob order).recs b)) ob.nextKey ob.SellOrders)
            (ob.nextKey :: (ob.BuyOrders ++ ob.SellOrders)) :=
          (List.Perm.append_left ob.BuyOrders h1).trans List.perm_middle
        refine (hperm.nodup_iff).mpr ?_
        rw [List.nodup_cons]
        refine ⟨?_, hinv.loop.nodup⟩
        intro h
        rcases List.mem_append.mp h with h | h
        · exact hknB h
        · exact hknS h
      · intro j hj
        rw [hBeq] at hj
        rw [hnk]
        have := hinv.buyAlloc j hj
        omega
      · intro j hj
        rw [hnk]
        rcases (hmemS j).mp hj with rfl | hj2
        · omega
        · have := hinv.sellAlloc j hj2
          omega
      · intro j hj
        rw [hBeq] at hj
        rw [hro j (hneB j hj)]
        exact hinv.buySide j hj
      · intro j hj
        rcases (hmemS j).mp hj with rfl | hj2
        · rw [hrkSide]
          exact hsell
        · rw [hro j (hneS j hj2)]
          exact hinv.sellSide j hj2
      · intro j hj
        rcases hj with hj | hj
        · rw [hBeq] at hj
          exact hordOld j (Or.inl hj)
        · rcases (hmemS j).mp hj with rfl | hj2
          · rw [hrkID]
            simp only [hord]
            simp
          · exact hordOld j (Or.inr hj2)
      · intro oid j hj hcan2 hvol2
        simp only [hord] at hj
        by_cases hoid : oid = order.ID
        · rw [if_pos hoid] at hj
          have hje : j = ob.nextKey := by
            injection hj with h
            exact h.symm
          subst hje
          constructor
          · intro hside
            rw [hrkSide, hsell] at hside
            exact absurd hside (by decide)
          · intro _
            exact (hmemS ob.nextKey).mpr (Or.inl rfl)
        · rw [if_neg hoid] at hj
          have hja := hinv.idxAlloc oid j hj
          have hjk : j ≠ ob.nextKey := Nat.ne_of_lt hja.1
          rw [hro j hjk] at hcan2 hvol2 ⊢
          obtain ⟨hb, hs⟩ := hinv.liveIn oid j hj hcan2 hvol2
          constructor
          · intro hside
            rw [hBeq]
            exact hb hside
          · intro hside
            exact (hmemS j).mpr (Or.inr (hs hside))
    · obtain ⟨hBeq, hSeq⟩ := @pushState_other ob order hbuy hsell
      refine ⟨⟨?_, ?_, ?_, ?_, ?_, ?_, ?_⟩, ?_, ?_, ?_, ?_, htsLt, htsUniq, hidxAlloc, ?_, ?_⟩
      · rw [hBeq]
        refine List.Pairwise.imp_of_mem ?_ hinv.loop.sortedBuy
        intro a b ha hb hab
        rw [hro a (hneB a ha), hro b (hneB b hb)]
        exact hab
      · rw [hSeq]
        refine List.Pairwise.imp_of_mem ?_ hinv.loop.sortedSell
        intro a b ha hb hab
        rw [hro a (hneS a ha), hro b (hneS b hb)]
        exact hab
      · intro j hj
        rw [hBeq] at hj
        rw [hro j (hneB j hj)]
        exact hinv.loop.liveBuy j hj
      · intro j hj
        rw [hSeq] at hj
        rw [hro j (hneS j hj)]
        exact hinv.loop.liveSell j hj
      · intro j hj
        rw [hBeq] at hj
        rw [hro j (hneB j hj)]
        exact hinv.loop.volBuy j hj
      · intro j hj
        rw [hSeq] at hj
        rw [hro j (hneS j hj)]
        exact hinv.loop.volSell j hj
      · rw [hBeq, hSeq]
        exact hinv.loop.nodup
      · intro j hj
        rw [hBeq] at hj
        rw [hnk]
        have := hinv.buyAlloc j hj
        omega
      · intro j hj
        rw [hSeq] at hj
        rw [hnk]
        have := hinv.sellAlloc j hj
        omega
      · intro j hj
        rw [hBeq] at hj
        rw [hro j (hneB j hj)]
        exact hinv.buySide j hj
      · intro j hj
        rw [hSeq] at hj
        rw [hro j (hneS j hj)]
        exact hinv.sellSide j hj
      · intro j hj
        rw [hBeq] at hj
        rw [hSeq] at hj
        exact hordOld j hj
      · intro oid j hj hcan2 hvol2
        simp only [hord] at hj
        by_cases hoid : oid = order.ID
        · rw [if_pos hoid] at hj
          have hje : j = ob.nextKey := by
            injection hj with h
            exact h.symm
          subst hje
          constructor
          · intro hside
            rw [hrkSide] at hside
            exact absurd hside hbuy
          · intro hside
            rw [hrkSide] at hside
            exact absurd hside hsell
        · rw [if_neg hoid] at hj
          have hja := hinv.idxAlloc oid j hj
          have hjk : j ≠ ob.nextKey := Nat.ne_of_lt hja.1
          rw [hro j hjk] at hcan2 hvol2 ⊢
          obtain ⟨hb, hs⟩ := hinv.liveIn oid j hj hcan2 hvol2
          constructor
          · intro hside
            rw [hBeq]
            exact hb hside
          · intro hside
            rw [hSeq]
            exact hs hside

/-- `Insert` of a fresh live positive-volume order preserves goodness. -/
theorem insert_good {ob : OrderBook} {order : Order} (hg : Good ob)
    (hvol : 0 < order.Volume) (hcan : order.Cancelled = false)
    (hfresh : ob.Orders order.ID = none) : Good (ob.Insert order) := by
  have hinv3 := bookInv_push hg.1 hvol hcan hfresh
  rw [Insert_eq_push]
  exact inv_of_loopRes hinv3 (matchOrders_master order.ID order.Side hinv3.loop)

theorem buyBefore_congr2 {a a' b b' : Order} (hpa : a.Price = a'.Price)
    (hia : a.Inserted = a'.Inserted) (hpb : b.Price = b'.Price)
    (hib : b.Inserted = b'.Inserted) : buyBefore a b = buyBefore a' b' := by
  unfold buyBefore
  rw [hpa, hpb, hia, hib]

theorem sellBefore_congr2 {a a' b b' : Order} (hpa : a.Price = a'.Price)
    (hia : a.Inserted = a'.Inserted) (hpb : b.Price = b'.Price)
    (hib : b.Inserted = b'.Inserted) : sellBefore a b = sellBefore a' b' := by
  unfold sellBefore
  rw [hpa, hpb, hia, hib]

/-- The list obtained by removing the unique carrier of an ID contains
exactly the other elements. -/
theorem removeFirstID_facts {recs : Nat → Order} {oid : Int} {l : List Nat} {k : Nat}
    (hid : (recs k).ID = oid)
    (huniq : ∀ j ∈ l, (recs j).ID = oid → j = k)
    (hnd : l.Nodup) :
    (removeFirstID recs oid l).Sublist l ∧ k ∉ removeFirstID recs oid l
      ∧ ∀ j ∈ l, j ≠ k → j ∈ removeFirstID recs oid l := by
  by_cases hk : k ∈ l
  · obtain ⟨l1, l2, he, hr, h1, h2⟩ := removeFirstID_unique hk hid huniq hnd
    refine ⟨removeFirstID_sublist recs oid l, ?_, ?_⟩
    · rw [hr]
      intro h
      rcases List.mem_append.mp h with h | h
      · exact h1 h
      · exact h2 h
    · intro j hj hjk
      rw [hr]
      rw [he] at hj
      rcases List.mem_append.mp hj with h | h
      · exact List.mem_append.mpr (Or.inl h)
      · rcases List.mem_cons.mp h with h | h
        · exact absurd h hjk
        · exact List.mem_append.mpr (Or.inr h)
  · have hnone : ∀ j ∈ l, (recs j).ID ≠ oid := by
      intro j hj habs
      exact hk ((huniq j hj habs) ▸ hj)
    rw [removeFirstID_not_found hnone]
    exact ⟨List.Sublist.refl l, hk, fun j hj _ => hj⟩

/-- `Cancel` preserves goodness. -/
theorem cancel_good {ob : OrderBook} {oid : Int} (hg : Good ob) : Good (ob.Cancel oid) := by
  obtain ⟨hinv, hunx⟩ := hg
  unfold OrderBook.Cancel
  cases hk : ob.Orders oid with
  | none => exact ⟨hinv, hunx⟩
  | some k =>
    dsimp only
    have hidk : (ob.recs k).ID = oid := (hinv.idxAlloc oid k hk).2
    have hkalloc : k < ob.nextKey := (hinv.idxAlloc oid k hk).1
    set recs1 := setRec ob.recs k ({ ob.recs k with Cancelled := true }) with hrecs1
    have hr1k : recs1 k = { ob.recs k with Cancelled := true } := by
      rw [hrecs1]; simp [setRec]
    have hr1o : ∀ j, j ≠ k → recs1 j = ob.recs j := by
      intro j hj; rw [hrecs1]; simp [setRec, hj]
    have hIDsame : ∀ j, (recs1 j).ID = (ob.recs j).ID := by
      intro j
      by_cases hj : j = k
      · subst hj; rw [hr1k]
      · rw [hr1o j hj]
    have hInsSame : ∀ j, (recs1 j).Inserted = (ob.recs j).Inserted := by
      intro j
      by_cases hj : j = k
      · subst hj; rw [hr1k]
      · rw [hr1o j hj]
    have hPrSame : ∀ j, (recs1 j).Price = (ob.recs j).Price := by
      intro j
      by_cases hj : j = k
      · subst hj; rw [hr1k]
      · rw [hr1o j hj]
    have hVolSame : ∀ j, (recs1 j).Volume = (ob.recs j).Volume := by
      intro j
      by_cases hj : j = k
      · subst hj; rw [hr1k]
      · rw [hr1o j hj]
    have hSideSame : ∀ j, (recs1 j).Side = (ob.recs j).Side := by
      intro j
      by_cases hj : j = k
      · subst hj; rw [hr1k]
      · rw [hr1o j hj]
    have hCanOther : ∀ j, j ≠ k → (recs1 j).Cancelled = (ob.recs j).Cancelled := by
      intro j hj; rw [hr1o j hj]
    have hndB : ob.BuyOrders.Nodup :=
      hinv.loop.nodup.sublist (List.sublist_append_left _ _)
    have hndS : ob.SellOrders.Nodup :=
      hinv.loop.nodup.sublist (List.sublist_append_right _ _)
    have huniqB : ∀ j ∈ ob.BuyOrders, (recs1 j).ID = oid → j = k := by
      intro j hj hid2
      rw [hIDsame j] at hid2
      have := hinv.listIdx j (Or.inl hj)
      rw [hid2, hk] at this
      injection this with h
      exact h.symm
    have huniqS : ∀ j ∈ ob.SellOrders, (recs1 j).ID = oid → j = k := by
      intro j hj hid2
      rw [hIDsame j] at hid2
      have := hinv.listIdx j (Or.inr hj)
      rw [hid2, hk] at this
      injection this with h
      exact h.symm
    have hid1k : (recs1 k).ID = oid := by rw [hIDsame k]; exact hidk
    by_cases hside : (ob.recs k).Side = "BUY"
    · rw [if_pos hside]
      obtain ⟨hsub, hknot, hkeep⟩ :=
        removeFirstID_facts hid1k huniqB hndB
      set B2 := removeFirstID recs1 ((ob.recs k).ID) ob.BuyOrders with hB2
      have hsub2 : B2.Sublist ob.BuyOrders := by rw [hB2, hidk]; exact hsub
      have hknot2 : k ∉ B2 := by rw [hB2, hidk]; exact hknot
      have hkeep2 : ∀ j ∈ ob.BuyOrders, j ≠ k → j ∈ B2 := by
        rw [hB2, hidk]; exact hkeep
      have hkNotSell : k ∉ ob.SellOrders := by
        intro h
        have := hinv.sellSide k h
        rw [this] at hside
        exact absurd hside (by decide)
      refine ⟨⟨⟨?_, ?_, ?_, ?_, ?_, ?_, ?_⟩, ?_, ?_, ?_, ?_, ?_, ?_, ?_, ?_, ?_⟩, ?_⟩
      · refine List.Pairwise.sublist hsub2 ?_
        refine List.Pairwise.imp_of_mem ?_ hinv.loop.sortedBuy
        intro a b _ _ hab
        rw [buyBefore_congr2 (hPrSame a) (hInsSame a) (hPrSame b) (hInsSame b)]
        exact hab
      · refine List.Pairwise.imp_of_mem ?_ hinv.loop.sortedSell
        intro a b _ _ hab
        rw [sellBefore_congr2 (hPrSame a) (hInsSame a) (hPrSame b) (hInsSame b)]
        exact hab
      · intro j hj
        have hjne : j ≠ k := fun h => hknot2 (h ▸ hj)
        rw [hCanOther j hjne]
        exact hinv.loop.liveBuy j (hsub2.subset hj)
      · intro j hj
        have hjne : j ≠ k := fun h => hkNotSell (h ▸ hj)
        rw [hCanOther j hjne]
        exact hinv.loop.liveSell j hj
      · intro j hj
        rw [hVolSame j]
        exact hinv.loop.volBuy j (hsub2.subset hj)
      · intro j hj
        rw [hVolSame j]
        exact hinv.loop.volSell j hj
      · exact hinv.loop.nodup.sublist (List.Sublist.append hsub2 (List.Sublist.refl _))
      · intro j hj
        exact hinv.buyAlloc j (hsub2.subset hj)
      · intro j hj
        exact hinv.sellAlloc j hj
      · intro j hj
        rw [hSideSame j]
        exact hinv.buySide j (hsub2.subset hj)
      · intro j hj
        rw [hSideSame j]
        exact hinv.sellSide j hj
      · intro j hj
        rw [hInsSame j]
        exact hinv.tsLt j hj
      · intro j1 h1 j2 h2 hne
        rw [hInsSame j1, hInsSame j2]
        exact hinv.tsUniq j1 h1 j2 h2 hne
      · intro oid2 j hj
        obtain ⟨ha, hb⟩ := hinv.idxAlloc oid2 j hj
        exact ⟨ha, (hIDsame j).trans hb⟩
      · intro j hj
        rw [hIDsame j]
        refine hinv.listIdx j ?_
        rcases hj with h | h
        · exact Or.inl (hsub2.subset h)
        · exact Or.inr h
      · intro oid2 j hj hcan2 hvol2
        by_cases hjk : j = k
        · have hcc : (recs1 j).Cancelled = false := hcan2
          rw [hjk, hr1k] at hcc
          simp at hcc
        · rw [hCanOther j hjk] at hcan2
          rw [hVolSame j] at hvol2
          obtain ⟨hbb, hss⟩ := hinv.liveIn oid2 j hj hcan2 hvol2
          rw [hSideSame j]
          exact ⟨fun h => hkeep2 j (hbb h) hjk, hss⟩
      · intro bk hbk sk hsk hc1 hc2
        have hbne : bk ≠ k := fun h => hknot2 (h ▸ hbk)
        have hsne : sk ≠ k := fun h => hkNotSell (h ▸ hsk)
        rw [hCanOther bk hbne] at hc1
        rw [hCanOther sk hsne] at hc2
        rw [hPrSame bk, hPrSame sk]
        exact hunx bk (hsub2.subset hbk) sk hsk hc1 hc2
    · by_cases hside2 : (ob.recs k).Side = "SELL"
      · rw [if_neg hside, if_pos hside2]
        obtain ⟨hsub, hknot, hkeep⟩ :=
          removeFirstID_facts hid1k huniqS hndS
        set S2 := removeFirstID recs1 ((ob.recs k).ID) ob.SellOrders with hS2
        have hsub2 : S2.Sublist ob.SellOrders := by rw [hS2, hidk]; exact hsub
        have hknot2 : k ∉ S2 := by rw [hS2, hidk]; exact hknot
        have hkeep2 : ∀ j ∈ ob.SellOrders, j ≠ k → j ∈ S2 := by
          rw [hS2, hidk]; exact hkeep
        have hkNotBuy : k ∉ ob.BuyOrders := by
          intro h
          have := hinv.buySide k h
          rw [this] at hside
          exact hside rfl
        refine ⟨⟨⟨?_, ?_, ?_, ?_, ?_, ?_, ?_⟩, ?_, ?_, ?_, ?_, ?_, ?_, ?_, ?_, ?_⟩, ?_⟩
        · refine List.Pairwise.imp_of_mem ?_ hinv.loop.sortedBuy
          intro a b _ _ hab
          rw [buyBefore_congr2 (hPrSame a) (hInsSame a) (hPrSame b) (hInsSame b)]
          exact hab
        · refine List.Pairwise.sublist hsub2 ?_
          refine List.Pairwise.imp_of_mem ?_ hinv.loop.sortedSell
          intro a b _ _ hab
          rw [sellBefore_congr2 (hPrSame a) (hInsSame a) (hPrSame b) (hInsSame b)]
          exact hab
        · intro j hj
          have hjne : j ≠ k := fun h => hkNotBuy (h ▸ hj)
          rw [hCanOther j hjne]
          exact hinv.loop.liveBuy j hj
        · intro j hj
          have hjne : j ≠ k := fun h => hknot2 (h ▸ hj)
          rw [hCanOther j hjne]
          exact hinv.loop.liveSell j (hsub2.subset hj)
        · intro j hj
          rw [hVolSame j]
          exact hinv.loop.volBuy j hj
        · intro j hj
          rw [hVolSame j]
          exact hinv.loop.volSell j (hsub2.subset hj)
        · exact hinv.loop.nodup.sublist (List.Sublist.append (List.Sublist.refl _) hsub2)
        · intro j hj
          exact hinv.buyAlloc j hj
        · intro j hj
          exact hinv.sellAlloc j (hsub2.subset hj)
        · intro j hj
          rw [hSideSame j]
          exact hinv.buySide j hj
        · intro j hj
          rw [hSideSame j]
          exact hinv.sellSide j (hsub2.subset hj)
        · intro j hj
          rw [hInsSame j]
          exact hinv.tsLt j hj
        · intro j1 h1 j2 h2 hne
          rw [hInsSame j1, hInsSame j2]
          exact hinv.tsUniq j1 h1 j2 h2 hne
        · intro oid2 j hj
          obtain ⟨ha, hb⟩ := hinv.idxAlloc oid2 j hj
          exact ⟨ha, (hIDsame j).trans hb⟩
        · intro j hj
          rw [hIDsame j]
          refine hinv.listIdx j ?_
          rcases hj with h | h
          · exact Or.inl h
          · exact Or.inr (hsub2.subset h)
        · intro oid2 j hj hcan2 hvol2
          by_cases hjk : j = k
          · have hcc : (recs1 j).Cancelled = false := hcan2
            rw [hjk, hr1k] at hcc
            simp at hcc
          · rw [hCanOther j hjk] at hcan2
            rw [hVolSame j] at hvol2
            obtain ⟨hbb, hss⟩ := hinv.liveIn oid2 j hj hcan2 hvol2
            rw [hSideSame j]
            exact ⟨hbb, fun h => hkeep2 j (hss h) hjk⟩
        · intro bk hbk sk hsk hc1 hc2
          have hbne : bk ≠ k := fun h => hkNotBuy (h ▸ hbk)
          have hsne : sk ≠ k := fun h => hknot2 (h ▸ hsk)
          rw [hCanOther bk hbne] at hc1
          rw [hCanOther sk hsne] at hc2
          rw [hPrSame bk, hPrSame sk]
          exact hunx bk hbk sk (hsub2.subset hsk) hc1 hc2
      · rw [if_neg hside, if_neg hside2]
        have hkNotBuy : k ∉ ob.BuyOrders := by
          intro h
          exact hside (hinv.buySide k h)
        have hkNotSell : k ∉ ob.SellOrders := by
          intro h
          exact hside2 (hinv.sellSide k h)
        refine ⟨⟨⟨?_, ?_, ?_, ?_, ?_, ?_, ?_⟩, ?_, ?_, ?_, ?_, ?_, ?_, ?_, ?_, ?_⟩, ?_⟩
        · refine List.Pairwise.imp_of_mem ?_ hinv.loop.sortedBuy
          intro a b _ _ hab
          rw [buyBefore_congr2 (hPrSame a) (hInsSame a) (hPrSame b) (hInsSame b)]
          exact hab
        · refine List.Pairwise.imp_of_mem ?_ hinv.loop.sortedSell
          intro a b _ _ hab
          rw [sellBefore_congr2 (hPrSame a) (hInsSame a) (hPrSame b) (hInsSame b)]
          exact hab
        · intro j hj
          rw [hCanOther j (fun h => hkNotBuy (h ▸ hj))]
          exact hinv.loop.liveBuy j hj
        · intro j hj
          rw [hCanOther j (fun h => hkNotSell (h ▸ hj))]
          exact hinv.loop.liveSell j hj
        · intro j hj
          rw [hVolSame j]
          exact hinv.loop.volBuy j hj
        · intro j hj
          rw [hVolSame j]
          exact hinv.loop.volSell j hj
        · exact hinv.loop.nodup
        · exact hinv.buyAlloc
        · exact hinv.sellAlloc
        · intro j hj
          rw [hSideSame j]
          exact hinv.buySide j hj
        · intro j hj
          rw [hSideSame j]
          exact hinv.sellSide j hj
        · intro j hj
          rw [hInsSame j]
          exact hinv.tsLt j hj
        · intro j1 h1 j2 h2 hne
          rw [hInsSame j1, hInsSame j2]
          exact hinv.tsUniq j1 h1 j2 h2 hne
        · intro oid2 j hj
          obtain ⟨ha, hb⟩ := hinv.idxAlloc oid2 j hj
          exact ⟨ha, (hIDsame j).trans hb⟩
        · intro j hj
          rw [hIDsame j]
          exact hinv.listIdx j hj
        · intro oid2 j hj hcan2 hvol2
          by_cases hjk : j = k
          · have hcc : (recs1 j).Cancelled = false := hcan2
            rw [hjk, hr1k] at hcc
            simp at hcc
          · rw [hCanOther j hjk] at hcan2
            rw [hVolSame j] at hvol2
            rw [hSideSame j]
            exact hinv.liveIn oid2 j hj hcan2 hvol2
        · intro bk hbk sk hsk hc1 hc2
          rw [hCanOther bk (fun h => hkNotBuy (h ▸ hbk))] at hc1
          rw [hCanOther sk (fun h => hkNotSell (h ▸ hsk))] at hc2
          rw [hPrSame bk, hPrSame sk]
          exact hunx bk hbk sk hsk hc1 hc2

theorem setRec_setRec (r : Nat → Order) (k : Nat) (a b : Order) :
    setRec (setRec r k a) k b = setRec r k b := by
  funext j
  by_cases hj : j = k
  · simp [setRec, hj]
  · simp [setRec, hj]

theorem setRec_self (r : Nat → Order) (k : Nat) : setRec r k (r k) = r := by
  funext j
  by_cases hj : j = k
  · simp [setRec, hj]
  · simp [setRec, hj]

/-- The state the reinsertion path of `Update` hands to the matching
loop: the record restamped to `ts1` (the current time on a volume
increase, the unchanged old stamp otherwise), removed from its heap,
overwritten with the new price and volume, reinserted, and re-registered
in the index; the clock advanced to `clock1`. -/
def updMid (ob : OrderBook) (k : Nat) (oid : Int) (newP newV : Int)
    (ts1 clock1 : Nat) : OrderBook :=
  let recs1 := setRec ob.recs k ({ ob.recs k with Inserted := ts1 })
  let ob1 : OrderBook := { ob with recs := recs1, clock := clock1 }
  let ob2 := ob1.removeOrderFromHeap (recs1 k)
  let ob3 : OrderBook :=
    { ob2 with recs := setRec ob2.recs k ({ recs1 k with Price := newP, Volume := newV }) }
  let ob4 := ob3.insertOrderIntoHeap k
  { ob4 with Orders := fun i => if i = oid then some k else ob4.Orders i }

theorem removeHeap_fields (ob : OrderBook) (o : Order) :
    (ob.removeOrderFromHeap o).recs = ob.recs
    ∧ (ob.removeOrderFromHeap o).nextKey = ob.nextKey
    ∧ (ob.removeOrderFromHeap o).clock = ob.clock
    ∧ (ob.removeOrderFromHeap o).Orders = ob.Orders
    ∧ (ob.removeOrderFromHeap o).Trades = ob.Trades := by
  unfold OrderBook.removeOrderFromHeap
  split
  · exact ⟨rfl, rfl, rfl, rfl, rfl⟩
  · split
    · exact ⟨rfl, rfl, rfl, rfl, rfl⟩
    · exact ⟨rfl, rfl, rfl, rfl, rfl⟩

theorem setRec_same (r : Nat → Order) (k : Nat) (a : Order) :
    setRec r k a k = a := by
  simp [setRec]

theorem updMid_fields (ob : OrderBook) (k : Nat) (oid : Int) (newP newV : Int)
    (ts1 clock1 : Nat) :
    (updMid ob k oid newP newV ts1 clock1).nextKey = ob.nextKey
    ∧ (updMid ob k oid newP newV ts1 clock1).clock = clock1
    ∧ (updMid ob k oid newP newV ts1 clock1).recs
        = setRec ob.recs k
            ({ ob.recs k with Inserted := ts1, Price := newP, Volume := newV })
    ∧ (updMid ob k oid newP newV ts1 clock1).Orders
        = (fun i => if i = oid then some k else ob.Orders i)
    ∧ (updMid ob k oid newP newV ts1 clock1).Trades = ob.Trades := by
  unfold updMid OrderBook.removeOrderFromHeap OrderBook.insertOrderIntoHeap
  dsimp only
  simp only [setRec_same, setRec_setRec]
  split
  all_goals try split
  all_goals (dsimp only; rw [setRec_setRec]; exact ⟨rfl, rfl, rfl, rfl, rfl⟩)

theorem updMid_lists_buy (ob : OrderBook) (k : Nat) (oid : Int) (newP newV : Int)
    (ts1 clock1 : Nat) (hside : (ob.recs k).Side = "BUY") :
    (updMid ob k oid newP newV ts1 clock1).BuyOrders
      = insertByKey
          (fun a b => buyBefore
            (setRec ob.recs k ({ ob.recs k with Inserted := ts1, Price := newP, Volume := newV }) a)
            (setRec ob.recs k ({ ob.recs k with Inserted := ts1, Price := newP, Volume := newV }) b))
          k
          (removeFirstID (setRec ob.recs k ({ ob.recs k with Inserted := ts1 }))
            (ob.recs k).ID ob.BuyOrders)
    ∧ (updMid ob k oid newP newV ts1 clock1).SellOrders = ob.SellOrders := by
  unfold updMid OrderBook.removeOrderFromHeap OrderBook.insertOrderIntoHeap
  dsimp only
  simp only [setRec_same, setRec_setRec]
  rw [if_pos hside]
  try dsimp only
  rw [if_pos hside]
  try dsimp only
  try simp only [setRec_same, setRec_setRec]
  exact ⟨by trivial, by trivial⟩

theorem updMid_lists_sell (ob : OrderBook) (k : Nat) (oid : Int) (newP newV : Int)
    (ts1 clock1 : Nat) (hside : (ob.recs k).Side = "SELL") :
    (updMid ob k oid newP newV ts1 clock1).SellOrders
      = insertByKey
          (fun a b => sellBefore
            (setRec ob.recs k ({ ob.recs k with Inserted := ts1, Price := newP, Volume := newV }) a)
            (setRec ob.recs k ({ ob.recs k with Inserted := ts1, Price := newP, Volume := newV }) b))
          k
          (removeFirstID (setRec ob.recs k ({ ob.recs k with Inserted := ts1 }))
            (ob.recs k).ID ob.SellOrders)
    ∧ (updMid ob k oid newP newV ts1 clock1).BuyOrders = ob.BuyOrders := by
  have hnb : ¬ (ob.recs k).Side = "BUY" := by rw [hside]; decide
  unfold updMid OrderBook.removeOrderFromHeap OrderBook.insertOrderIntoHeap
  dsimp only
  simp only [setRec_same, setRec_setRec]
  rw [if_neg hnb, if_pos hside]
  try dsimp only
  rw [if_neg hnb, if_pos hside]
  try dsimp only
  try simp only [setRec_same, setRec_setRec]
  exact ⟨by trivial, by trivial⟩

theorem updMid_lists_other (ob : OrderBook) (k : Nat) (oid : Int) (newP newV : Int)
    (ts1 clock1 : Nat) (hnb : ¬ (ob.recs k).Side = "BUY")
    (hns : ¬ (ob.recs k).Side = "SELL") :
    (updMid ob k oid newP newV ts1 clock1).BuyOrders = ob.BuyOrders
    ∧ (updMid ob k oid newP newV ts1 clock1).SellOrders = ob.SellOrders := by
  unfold updMid OrderBook.removeOrderFromHeap OrderBook.insertOrderIntoHeap
  dsimp only
  simp only [setRec_same, setRec_setRec]
  rw [if_neg hnb, if_neg hns]
  try dsimp only
  rw [if_neg hnb, if_neg hns]
  try dsimp only
  try simp only [setRec_same, setRec_setRec]
  exact ⟨by trivial, by trivial⟩

/-- The full book invariant survives the reinsertion sequence of `Update`
(restamp to `ts1`, remove from the heap, overwrite price and volume,
reinsert, re-register), provided the new stamp is below the new clock and
distinct from every other allocated stamp. -/
theorem update_mid_inv {ob : OrderBook} {k : Nat} {oid : Int} (newP : Int) {newV : Int}
    {ts1 clock1 : Nat}
    (hinv : BookInv ob)
    (hk : ob.Orders oid = some k)
    (hcan : (ob.recs k).Cancelled = false)
    (hnv : 0 < newV)
    (hts1lt : ts1 < clock1)
    (hclk : ob.clock ≤ clock1)
    (htsne : ∀ j, j < ob.nextKey → j ≠ k → (ob.recs j).Inserted ≠ ts1) :
    BookInv (updMid ob k oid newP newV ts1 clock1) := by
  obtain ⟨hnk, hck, hrecs, hord, htr⟩ := updMid_fields ob k oid newP newV ts1 clock1
  have hidk : (ob.recs k).ID = oid := (hinv.idxAlloc oid k hk).2
  have hkalloc : k < ob.nextKey := (hinv.idxAlloc oid k hk).1
  set M := updMid ob k oid newP newV ts1 clock1 with hM
  have hrk : M.recs k
      = { ob.recs k with Inserted := ts1, Price := newP, Volume := newV } := by
    rw [hrecs]; simp [setRec]
  have hro : ∀ j, j ≠ k → M.recs j = ob.recs j := by
    intro j hj; rw [hrecs]; simp [setRec, hj]
  have hrkIns : (M.recs k).Inserted = ts1 := by rw [hrk]
  have hrkVol : (M.recs k).Volume = newV := by rw [hrk]
  have hrkCan : (M.recs k).Cancelled = (ob.recs k).Cancelled := by rw [hrk]
  have hrkSide : (M.recs k).Side = (ob.recs k).Side := by rw [hrk]
  have hrkID : (M.recs k).ID = (ob.recs k).ID := by rw [hrk]
  set r1 := setRec ob.recs k ({ ob.recs k with Inserted := ts1 }) with hr1def
  have hr1k : r1 k = { ob.recs k with Inserted := ts1 } := by
    rw [hr1def]; simp [setRec]
  have hr1o : ∀ j, j ≠ k → r1 j = ob.recs j := by
    intro j hj; rw [hr1def]; simp [setRec, hj]
  have hIDsame1 : ∀ j, (r1 j).ID = (ob.recs j).ID := by
    intro j
    by_cases hj : j = k
    · subst hj; rw [hr1k]
    · rw [hr1o j hj]
  have hid1k : (r1 k).ID = oid := by rw [hIDsame1 k]; exact hidk
  have hndB : ob.BuyOrders.Nodup :=
    hinv.loop.nodup.sublist (List.sublist_append_left _ _)
  have hndS : ob.SellOrders.Nodup :=
    hinv.loop.nodup.sublist (List.sublist_append_right _ _)
  have huniqB : ∀ j ∈ ob.BuyOrders, (r1 j).ID = oid → j = k := by
    intro j hj hid2
    rw [hIDsame1 j] at hid2
    have := hinv.listIdx j (Or.inl hj)
    rw [hid2, hk] at this
    injection this with h
    exact h.symm
  have huniqS : ∀ j ∈ ob.SellOrders, (r1 j).ID = oid → j = k := by
    intro j hj hid2
    rw [hIDsame1 j] at hid2
    have := hinv.listIdx j (Or.inr hj)
    rw [hid2, hk] at this
    injection this with h
    exact h.symm
  have hIDnoK : ∀ j, j ∈ ob.BuyOrders ∨ j ∈ ob.SellOrders → j ≠ k →
      (ob.recs j).ID ≠ oid := by
    intro j hj hjk habs
    have := hinv.listIdx j hj
    rw [habs, hk] at this
    injection this with h
    exact hjk h.symm
  -- side-independent pieces
  have htsLt : ∀ j, j < M.nextKey → (M.recs j).Inserted < M.clock := by
    intro j hj
    rw [hnk] at hj
    rw [hck]
    by_cases hjk : j = k
    · subst hjk; rw [hrkIns]; exact hts1lt
    · rw [hro j hjk]
      have := hinv.tsLt j hj
      omega
  have htsUniq : ∀ j1, j1 < M.nextKey → ∀ j2, j2 < M.nextKey → j1 ≠ j2 →
      (M.recs j1).Inserted ≠ (M.recs j2).Inserted := by
    intro j1 h1 j2 h2 hne
    rw [hnk] at h1 h2
    by_cases hk1 : j1 = k
    · have hk2 : j2 ≠ k := fun h => hne (hk1.trans h.symm)
      rw [hk1, hrkIns, hro j2 hk2]
      exact fun h => (htsne j2 h2 hk2) h.symm
    · by_cases hk2 : j2 = k
      · rw [hro j1 hk1, hk2, hrkIns]
        exact htsne j1 h1 hk1
      · rw [hro j1 hk1, hro j2 hk2]
        exact hinv.tsUniq j1 h1 j2 h2 hne
  have hidxAlloc : ∀ oid2 j, M.Orders oid2 = some j →
      j < M.nextKey ∧ (M.recs j).ID = oid2 := by
    intro oid2 j hj
    simp only [hord] at hj
    rw [hnk]
    by_cases hoid : oid2 = oid
    · rw [if_pos hoid] at hj
      have hje : j = k := by
        injection hj with h
        exact h.symm
      rw [hje]
      exact ⟨hkalloc, by rw [hrkID, hidk, hoid]⟩
    · rw [if_neg hoid] at hj
      obtain ⟨ha, hb⟩ := hinv.idxAlloc oid2 j hj
      have hjk : j ≠ k := by
        intro h
        subst h
        rw [hidk] at hb
        exact hoid hb.symm
      rw [hro j hjk]
      exact ⟨ha, hb⟩
  have hordOld : ∀ j, j ∈ ob.BuyOrders ∨ j ∈ ob.SellOrders → j ≠ k →
      M.Orders ((M.recs j).ID) = some j := by
    intro j hj hjk
    rw [hro j hjk]
    simp only [hord]
    rw [if_neg (hIDnoK j hj hjk)]
    exact hinv.listIdx j hj
  by_cases hside : (ob.recs k).Side = "BUY"
  · obtain ⟨hBeq, hSeq⟩ := updMid_lists_buy ob k oid newP newV ts1 clock1 hside
    rw [← hrecs] at hBeq
    rw [← hM] at hBeq hSeq
    rw [← hr1def] at hBeq
    obtain ⟨hsub, hknot, hkeep⟩ :=
      removeFirstID_facts hid1k huniqB hndB
    set B2 := removeFirstID r1 ((ob.recs k).ID) ob.BuyOrders with hB2def
    have hB2eq : B2 = removeFirstID r1 oid ob.BuyOrders := by rw [hB2def, hidk]
    have hsub2 : B2.Sublist ob.BuyOrders := by rw [hB2eq]; exact hsub
    have hknot2 : k ∉ B2 := by rw [hB2eq]; exact hknot
    have hkeep2 : ∀ j ∈ ob.BuyOrders, j ≠ k → j ∈ B2 := by
      rw [hB2eq]; exact hkeep
    have hneB2 : ∀ j ∈ B2, j ≠ k := fun j hj h => hknot2 (h ▸ hj)
    have hkNotSell : k ∉ ob.SellOrders := by
      intro h
      have := hinv.sellSide k h
      rw [this] at hside
      exact absurd hside (by decide)
    have hneS : ∀ j ∈ ob.SellOrders, j ≠ k := fun j hj h => hkNotSell (h ▸ hj)
    have hmemB : ∀ j, j ∈ M.BuyOrders ↔ j = k ∨ j ∈ B2 := by
      intro j
      rw [hBeq]
      exact insertByKey_mem
    refine ⟨⟨?_, ?_, ?_, ?_, ?_, ?_, ?_⟩, ?_, ?_, ?_, ?_, htsLt, htsUniq, hidxAlloc, ?_, ?_⟩
    · rw [hBeq]
      refine insertByKey_pairwise (fun a b c => buyBefore_trans) ?_ ?_
      · intro y hy
        refine buyBefore_total ?_
        have hyne := hneB2 y hy
        rw [hrkIns, hro y hyne]
        have hylt := hinv.buyAlloc y (hsub2.subset hy)
        exact fun h => (htsne y hylt hyne) h.symm
      · refine List.Pairwise.imp_of_mem ?_ (hinv.loop.sortedBuy.sublist hsub2)
        intro a b ha hb hab
        rw [hro a (hneB2 a ha), hro b (hneB2 b hb)]
        exact hab
    · rw [hSeq]
      refine List.Pairwise.imp_of_mem ?_ hinv.loop.sortedSell
      intro a b ha hb hab
      rw [hro a (hneS a ha), hro b (hneS b hb)]
      exact hab
    · intro j hj
      rcases (hmemB j).mp hj with rfl | hj2
      · rw [hrkCan]; exact hcan
      · rw [hro j (hneB2 j hj2)]
        exact hinv.loop.liveBuy j (hsub2.subset hj2)
    · intro j hj
      rw [hSeq] at hj
      rw [hro j (hneS j hj)]
      exact hinv.loop.liveSell j hj
    · intro j hj
      rcases (hmemB j).mp hj with rfl | hj2
      · rw [hrkVol]; exact hnv
      · rw [hro j (hneB2 j hj2)]
        exact hinv.loop.volBuy j (hsub2.subset hj2)
    · intro j hj
      rw [hSeq] at hj
      rw [hro j (hneS j hj)]
      exact hinv.loop.volSell j hj
    · rw [hBeq, hSeq]
      have hperm := (insertByKey_perm (fun a b => buyBefore (M.recs a) (M.recs b))
        k B2).append_right ob.SellOrders
      rw [List.cons_append] at hperm
      refine (hperm.nodup_iff).mpr ?_
      rw [List.nodup_cons]
      refine ⟨?_, hinv.loop.nodup.sublist (List.Sublist.append hsub2 (List.Sublist.refl _))⟩
      intro h
      rcases List.mem_append.mp h with h | h
      · exact hknot2 h
      · exact hkNotSell h
    · intro j hj
      rw [hnk]
      rcases (hmemB j).mp hj with rfl | hj2
      · exact hkalloc
      · exact hinv.buyAlloc j (hsub2.subset hj2)
    · intro j hj
      rw [hSeq] at hj
      rw [hnk]
      exact hinv.sellAlloc j hj
    · intro j hj
      rcases (hmemB j).mp hj with rfl | hj2
      · rw [hrkSide]; exact hside
      · rw [hro j (hneB2 j hj2)]
        exact hinv.buySide j (hsub2.subset hj2)
    · intro j hj
      rw [hSeq] at hj
      rw [hro j (hneS j hj)]
      exact hinv.sellSide j hj
    · intro j hj
      by_cases hjk : j = k
      · rw [hjk, hrkID, hidk, hord]
        simp
      · refine hordOld j ?_ hjk
        rcases hj with h | h
        · exact Or.inl (hsub2.subset (((hmemB j).mp h).resolve_left hjk))
        · rw [hSeq] at h
          exact Or.inr h
    · intro oid2 j hj hcan2 hvol2
      simp only [hord] at hj
      by_cases hoid : oid2 = oid
      · rw [if_pos hoid] at hj
        have hje : j = k := by
          injection hj with h
          exact h.symm
        rw [hje]
        constructor
        · intro _
          exact (hmemB k).mpr (Or.inl rfl)
        · intro hside2
          rw [hrkSide, hside] at hside2
          exact absurd hside2 (by decide)
      · rw [if_neg hoid] at hj
        have hja := hinv.idxAlloc oid2 j hj
        have hjk : j ≠ k := by
          intro h
          subst h
          rw [hidk] at hja
          exact hoid hja.2.symm
        rw [hro j hjk] at hcan2 hvol2 ⊢
        obtain ⟨hbb, hss⟩ := hinv.liveIn oid2 j hj hcan2 hvol2
        constructor
        · intro hside2
          exact (hmemB j).mpr (Or.inr (hkeep2 j (hbb hside2) hjk))
        · intro hside2
          rw [hSeq]
          exact hss hside2
  · by_cases hside2 : (ob.recs k).Side = "SELL"
    · obtain ⟨hSeq, hBeq⟩ := updMid_lists_sell ob k oid newP newV ts1 clock1 hside2
      rw [← hrecs] at hSeq
      rw [← hM] at hBeq hSeq
      rw [← hr1def] at hSeq
      obtain ⟨hsub, hknot, hkeep⟩ :=
        removeFirstID_facts hid1k huniqS hndS
      set S2 := removeFirstID r1 ((ob.recs k).ID) ob.SellOrders with hS2def
      have hS2eq : S2 = removeFirstID r1 oid ob.SellOrders := by rw [hS2def, hidk]
      have hsub2 : S2.Sublist ob.SellOrders := by rw [hS2eq]; exact hsub
      have hknot2 : k ∉ S2 := by rw [hS2eq]; exact hknot
      have hkeep2 : ∀ j ∈ ob.SellOrders, j ≠ k → j ∈ S2 := by
        rw [hS2eq]; exact hkeep
      have hneS2 : ∀ j ∈ S2, j ≠ k := fun j hj h => hknot2 (h ▸ hj)
      have hkNotBuy : k ∉ ob.BuyOrders := by
        intro h
        have := hinv.buySide k h
        exact hside this
      have hneB : ∀ j ∈ ob.BuyOrders, j ≠ k := fun j hj h => hkNotBuy (h ▸ hj)
      have hmemS : ∀ j, j ∈ M.SellOrders ↔ j = k ∨ j ∈ S2 := by
        intro j
        rw [hSeq]
        exact insertByKey_mem
      refine ⟨⟨?_, ?_, ?_, ?_, ?_, ?_, ?_⟩, ?_, ?_, ?_, ?_, htsLt, htsUniq, hidxAlloc, ?_, ?_⟩
      · rw [hBeq]
        refine List.Pairwise.imp_of_mem ?_ hinv.loop.sortedBuy
        intro a b ha hb hab
        rw [hro a (hneB a ha), hro b (hneB b hb)]
        exact hab
      · rw [hSeq]
        refine insertByKey_pairwise (fun a b c => sellBefore_trans) ?_ ?_
        · intro y hy
          refine sellBefore_total ?_
          have hyne := hneS2 y hy
          rw [hrkIns, hro y hyne]
          have hylt := hinv.sellAlloc y (hsub2.subset hy)
          exact fun h => (htsne y hylt hyne) h.symm
        · refine List.Pairwise.imp_of_mem ?_ (hinv.loop.sortedSell.sublist hsub2)
          intro a b ha hb hab
          rw [hro a (hneS2 a ha), hro b (hneS2 b hb)]
          exact hab
      · intro j hj
        rw [hBeq] at hj
        rw [hro j (hneB j hj)]
        exact hinv.loop.liveBuy j hj
      · intro j hj
        rcases (hmemS j).mp hj with rfl | hj2
        · rw [hrkCan]; exact hcan
        · rw [hro j (hneS2 j hj2)]
          exact hinv.loop.liveSell j (hsub2.subset hj2)
      · intro j hj
        rw [hBeq] at hj
        rw [hro j (hneB j hj)]
        exact hinv.loop.volBuy j hj
      · intro j hj
        rcases (hmemS j).mp hj with rfl | hj2
        · rw [hrkVol]; exact hnv
        · rw [hro j (hneS2 j hj2)]
          exact hinv.loop.volSell j (hsub2.subset hj2)
      · rw [hBeq, hSeq]
        have h1 := insertByKey_perm (fun a b => sellBefore (M.recs a) (M.recs b)) k S2
        have hperm : List.Perm
            (ob.BuyOrders ++ insertByKey (fun a b => sellBefore (M.recs a) (M.recs b)) k S2)
            (ob.BuyOrders ++ k :: S2) := List.Perm.append_left _ h1
        refine (hperm.nodup_iff).mpr ?_
        have hperm2 : List.Perm (ob.BuyOrders ++ k :: S2) (k :: (ob.BuyOrders ++ S2)) :=
          List.perm_middle
        refine (hperm2.nodup_iff).mpr ?_
        rw [List.nodup_cons]
        refine ⟨?_, hinv.loop.nodup.sublist
          (List.Sublist.append (List.Sublist.refl _) hsub2)⟩
        intro h
        rcases List.mem_append.mp h with h | h
        · exact hkNotBuy h
        · exact hknot2 h
      · intro j hj
        rw [hBeq] at hj
        rw [hnk]
        exact hinv.buyAlloc j hj
      · intro j hj
        rw [hnk]
        rcases (hmemS j).mp hj with rfl | hj2
        · exact hkalloc
        · exact hinv.sellAlloc j (hsub2.subset hj2)
      · intro j hj
        rw [hBeq] at hj
        rw [hro j (hneB j hj)]
        exact hinv.buySide j hj
      · intro j hj
        rcases (hmemS j).mp hj with rfl | hj2
        · rw [hrkSide]; exact hside2
        · rw [hro j (hneS2 j hj2)]
          exact hinv.sellSide j (hsub2.subset hj2)
      · intro j hj
        by_cases hjk : j = k
        · rw [hjk, hrkID, hidk, hord]
          simp
        · refine hordOld j ?_ hjk
          rcases hj with h | h
          · rw [hBeq] at h
            exact Or.inl h
          · exact Or.inr (hsub2.subset (((hmemS j).mp h).resolve_left hjk))
      · intro oid2 j hj hcan2 hvol2
        simp only [hord] at hj
        by_cases hoid : oid2 = oid
        · rw [if_pos hoid] at hj
          have hje : j = k := by
            injection hj with h
            exact h.symm
          rw [hje]
          constructor
          · intro hside3
            rw [hrkSide] at hside3
            exact absurd hside3 hside
          · intro _
            exact (hmemS k).mpr (Or.inl rfl)
        · rw [if_neg hoid] at hj
          have hja := hinv.idxAlloc oid2 j hj
          have hjk : j ≠ k := by
            intro h
            subst h
            rw [hidk] at hja
            exact hoid hja.2.symm
          rw [hro j hjk] at hcan2 hvol2 ⊢
          obtain ⟨hbb, hss⟩ := hinv.liveIn oid2 j hj hcan2 hvol2
          constructor
          · intro hside3
            rw [hBeq]
            exact hbb hside3
          · intro hside3
            exact (hmemS j).mpr (Or.inr (hkeep2 j (hss hside3) hjk))
    · obtain ⟨hBeq, hSeq⟩ := updMid_lists_other ob k oid newP newV ts1 clock1 hside hside2
      rw [← hM] at hBeq hSeq
      have hkNotBuy : k ∉ ob.BuyOrders := by
        intro h
        exact hside (hinv.buySide k h)
      have hkNotSell : k ∉ ob.SellOrders := by
        intro h
        exact hside2 (hinv.sellSide k h)
      have hneB : ∀ j ∈ ob.BuyOrders, j ≠ k := fun j hj h => hkNotBuy (h ▸ hj)
      have hneS : ∀ j ∈ ob.SellOrders, j ≠ k := fun j hj h => hkNotSell (h ▸ hj)
      refine ⟨⟨?_, ?_, ?_, ?_, ?_, ?_, ?_⟩, ?_, ?_, ?_, ?_, htsLt, htsUniq, hidxAlloc, ?_, ?_⟩
      · rw [hBeq]
        refine List.Pairwise.imp_of_mem ?_ hinv.loop.sortedBuy
        intro a b ha hb hab
        rw [hro a (hneB a ha), hro b (hneB b hb)]
        exact hab
      · rw [hSeq]
        refine List.Pairwise.imp_of_mem ?_ hinv.loop.sortedSell
        intro a b ha hb hab
        rw [hro a (hneS a ha), hro b (hneS b hb)]
        exact hab
      · intro j hj
        rw [hBeq] at hj
        rw [hro j (hneB j hj)]
        exact hinv.loop.liveBuy j hj
      · intro j hj
        rw [hSeq] at hj
        rw [hro j (hneS j hj)]
        exact hinv.loop.liveSell j hj
      · intro j hj
        rw [hBeq] at hj
        rw [hro j (hneB j hj)]
        exact hinv.loop.volBuy j hj
      · intro j hj
        rw [hSeq] at hj
        rw [hro j (hneS j hj)]
        exact hinv.loop.volSell j hj
      · rw [hBeq, hSeq]
        exact hinv.loop.nodup
      · intro j hj
        rw [hBeq] at hj
        rw [hnk]
        exact hinv.buyAlloc j hj
      · intro j hj
        rw [hSeq] at hj
        rw [hnk]
        exact hinv.sellAlloc j hj
      · intro j hj
        rw [hBeq] at hj
        rw [hro j (hneB j hj)]
        exact hinv.buySide j hj
      · intro j hj
        rw [hSeq] at hj
        rw [hro j (hneS j hj)]
        exact hinv.sellSide j hj
      · intro j hj
        rw [hBeq] at hj
        rw [hSeq] at hj
        have hjk : j ≠ k := by
          rcases hj with h | h
          · exact hneB j h
          · exact hneS j h
        exact hordOld j hj hjk
      · intro oid2 j hj hcan2 hvol2
        simp only [hord] at hj
        by_cases hoid : oid2 = oid
        · rw [if_pos hoid] at hj
          have hje : j = k := by
            injection hj with h
            exact h.symm
          rw [hje]
          constructor
          · intro hside3
            rw [hrkSide] at hside3
            exact absurd hside3 hside
          · intro hside3
            rw [hrkSide] at hside3
            exact absurd hside3 hside2
        · rw [if_neg hoid] at hj
          have hja := hinv.idxAlloc oid2 j hj
          have hjk : j ≠ k := by
            intro h
            subst h
            rw [hidk] at hja
            exact hoid hja.2.symm
          rw [hro j hjk] at hcan2 hvol2 ⊢
          obtain ⟨hbb, hss⟩ := hinv.liveIn oid2 j hj hcan2 hvol2
          constructor
          · intro hside3
            rw [hBeq]
            exact hbb hside3
          · intro hside3
            rw [hSeq]
            exact hss hside3

/-- On a volume increase, `Update` runs the matching loop on the
restamped-and-reinserted state with the fresh stamp `ob.clock`. -/
theorem update_eq_mid_bump {ob : OrderBook} {oid : Int} {k : Nat} {newP newV : Int}
    (hk : ob.Orders oid = some k)
    (hcan : (ob.recs k).Cancelled = false)
    (hnv : 0 < newV)
    (hvpos : 0 < (ob.recs k).Volume)
    (hbump : (ob.recs k).Volume < newV) :
    ob.Update oid newP newV
      = (updMid ob k oid newP newV ob.clock (ob.clock + 1)).matchOrders
          oid (ob.recs k).Side := by
  have hg1 : ¬((ob.recs k).Cancelled = true ∨ newV ≤ 0) := by
    intro h
    rcases h with h | h
    · rw [hcan] at h; cases h
    · omega
  have hg2 : ¬((ob.recs k).Volume ≤ 0) := by omega
  unfold OrderBook.Update updMid
  rw [hk]
  dsimp only
  rw [if_neg hg1, if_neg hg2, if_pos hbump]
  simp only [setRec_same]
  rw [if_pos (Or.inr (by omega))]

/-- Without a volume increase but with a price or volume change, `Update`
runs the matching loop on the reinserted state, keeping the old stamp. -/
theorem update_eq_mid_nobump {ob : OrderBook} {oid : Int} {k : Nat} {newP newV : Int}
    (hk : ob.Orders oid = some k)
    (hcan : (ob.recs k).Cancelled = false)
    (hnv : 0 < newV)
    (hvpos : 0 < (ob.recs k).Volume)
    (hnbump : ¬((ob.recs k).Volume < newV))
    (hneed : (ob.recs k).Price ≠ newP ∨ (ob.recs k).Volume ≠ newV) :
    ob.Update oid newP newV
      = (updMid ob k oid newP newV (ob.recs k).Inserted ob.clock).matchOrders
          oid (ob.recs k).Side := by
  have hg1 : ¬((ob.recs k).Cancelled = true ∨ newV ≤ 0) := by
    intro h
    rcases h with h | h
    · rw [hcan] at h; cases h
    · omega
  have hg2 : ¬((ob.recs k).Volume ≤ 0) := by omega
  have he : ({ ob.recs k with Inserted := (ob.recs k).Inserted } : Order) = ob.recs k := rfl
  have hre : setRec ob.recs k ({ ob.recs k with Inserted := (ob.recs k).Inserted })
      = ob.recs := by rw [he]; exact setRec_self ob.recs k
  unfold OrderBook.Update updMid
  rw [hk]
  dsimp only
  rw [if_neg hg1, if_neg hg2, if_neg hnbump, hre]
  rw [if_pos hneed]

/-- With neither a price nor a volume change, `Update` only rewrites the
index binding it already holds and runs the matching loop on the book
itself. -/
theorem update_eq_noop_path {ob : OrderBook} {oid : Int} {k : Nat} {newP newV : Int}
    (hk : ob.Orders oid = some k)
    (hcan : (ob.recs k).Cancelled = false)
    (hnv : 0 < newV)
    (hvpos : 0 < (ob.recs k).Volume)
    (hnbump : ¬((ob.recs k).Volume < newV))
    (hneed : ¬((ob.recs k).Price ≠ newP ∨ (ob.recs k).Volume ≠ newV)) :
    ob.Update oid newP newV = ob.matchOrders oid (ob.recs k).Side := by
  have hg1 : ¬((ob.recs k).Cancelled = true ∨ newV ≤ 0) := by
    intro h
    rcases h with h | h
    · rw [hcan] at h; cases h
    · omega
  have hg2 : ¬((ob.recs k).Volume ≤ 0) := by omega
  have hVol : (ob.recs k).Volume = newV := by
    push_neg at hneed
    exact hneed.2
  have hlit : ({ ob.recs k with Volume := newV } : Order) = ob.recs k := by
    rw [← hVol]
  have hords : (fun i => if i = oid then some k else ob.Orders i) = ob.Orders := by
    funext i
    by_cases hi : i = oid
    · rw [if_pos hi, hi]
      exact hk.symm
    · rw [if_neg hi]
  unfold OrderBook.Update
  rw [hk]
  dsimp only
  rw [if_neg hg1, if_neg hg2, if_neg hnbump, if_neg hneed]
  rw [hlit, setRec_self, hords]

/-- `Update` preserves goodness. -/
theorem update_good {ob : OrderBook} {oid newP newV : Int} (hg : Good ob) :
    Good (ob.Update oid newP newV) := by
  obtain ⟨hinv, hunx⟩ := hg
  cases hk : ob.Orders oid with
  | none =>
    unfold OrderBook.Update
    rw [hk]
    exact ⟨hinv, hunx⟩
  | some k =>
    by_cases hg1 : (ob.recs k).Cancelled = true ∨ newV ≤ 0
    · unfold OrderBook.Update
      rw [hk]
      dsimp only
      rw [if_pos hg1]
      exact ⟨hinv, hunx⟩
    · by_cases hg2 : (ob.recs k).Volume ≤ 0
      · unfold OrderBook.Update
        rw [hk]
        dsimp only
        rw [if_neg hg1, if_pos hg2]
        exact ⟨hinv, hunx⟩
      · have hcan : (ob.recs k).Cancelled = false := by
          rcases Bool.eq_false_or_eq_true (ob.recs k).Cancelled with h | h
          · exact absurd (Or.inl h) hg1
          · exact h
        have hnv : 0 < newV := by
          by_contra h
          exact hg1 (Or.inr (by omega))
        have hvpos : 0 < (ob.recs k).Volume := by omega
        have hkalloc : k < ob.nextKey := (hinv.idxAlloc oid k hk).1
        by_cases hbump : (ob.recs k).Volume < newV
        · rw [update_eq_mid_bump hk hcan hnv hvpos hbump]
          have hinv2 := update_mid_inv newP hinv hk hcan hnv
            (show ob.clock < ob.clock + 1 by omega) (by omega)
            (fun j hj _ => by have := hinv.tsLt j hj; omega)
          exact inv_of_loopRes hinv2
            (matchOrders_master oid ((ob.recs k).Side) hinv2.loop)
        · by_cases hneed : (ob.recs k).Price ≠ newP ∨ (ob.recs k).Volume ≠ newV
          · rw [update_eq_mid_nobump hk hcan hnv hvpos hbump hneed]
            have hinv2 := update_mid_inv newP hinv hk hcan hnv
              (hinv.tsLt k hkalloc) (le_refl _)
              (fun j hj hjk => hinv.tsUniq j hj k hkalloc hjk)
            exact inv_of_loopRes hinv2
              (matchOrders_master oid ((ob.recs k).Side) hinv2.loop)
          · rw [update_eq_noop_path hk hcan hnv hvpos hbump hneed]
            exact inv_of_loopRes hinv
              (matchOrders_master oid ((ob.recs k).Side) hinv.loop)

theorem OrderBook.ext7 {a b : OrderBook} (h1 : a.nextKey = b.nextKey)
    (h2 : a.clock = b.clock) (h3 : a.recs = b.recs)
    (h4 : a.BuyOrders = b.BuyOrders) (h5 : a.SellOrders = b.SellOrders)
    (h6 : a.Orders = b.Orders) (h7 : a.Trades = b.Trades) : a = b := by
  cases a
  cases b
  dsimp only at h1 h2 h3 h4 h5 h6 h7
  subst h1 h2 h3 h4 h5 h6 h7
  rfl

/-- The empty book satisfies the invariant and is uncrossed. -/
theorem good_empty : Good emptyBook := by
  refine ⟨⟨⟨?_, ?_, ?_, ?_, ?_, ?_, ?_⟩, ?_, ?_, ?_, ?_, ?_, ?_, ?_, ?_, ?_⟩, ?_⟩
  all_goals simp [emptyBook, Uncrossed]

/-- The books reachable by the operations of the source from the empty
book, under the input grammar: inserted orders carry positive volume, are
not pre-cancelled, and have a globally unique ID (spec §3). -/
inductive Reachable : OrderBook → Prop
  | empty : Reachable emptyBook
  | insert {ob : OrderBook} (order : Order) : Reachable ob → 0 < order.Volume →
      order.Cancelled = false → ob.Orders order.ID = none → Reachable (ob.Insert order)
  | update {ob : OrderBook} (oid newP newV : Int) : Reachable ob →
      Reachable (ob.Update oid newP newV)
  | cancel {ob : OrderBook} (oid : Int) : Reachable ob → Reachable (ob.Cancel oid)

/-- Every reachable book satisfies the full invariant and is uncrossed. -/
theorem reachable_good {ob : OrderBook} (h : Reachable ob) : Good ob := by
  induction h with
  | empty => exact good_empty
  | insert order _ hvol hcan hfresh ih => exact insert_good ih hvol hcan hfresh
  | update oid newP newV _ ih => exact update_good ih
  | cancel oid _ ih => exact cancel_good ih

/-- C3: an UPDATE of a live order keeping its price and strictly reducing
its volume to a positive value leaves the book identical except for the
volume field of that order's record: both side sequences, every other
record, the index, the trade log, the clock and the order's own `Inserted`
stamp are untouched, so its priority position is preserved. -/
theorem C3_volume_decrease {ob : OrderBook} {oid newV : Int} {k : Nat}
    (hre : Reachable ob)
    (hk : ob.Orders oid = some k)
    (hcan : (ob.recs k).Cancelled = false)
    (hpos : 0 < newV)
    (hlt : newV < (ob.recs k).Volume) :
    ob.Update oid ((ob.recs k).Price) newV
      = { ob with recs := setRec ob.recs k ({ ob.recs k with Volume := newV }) } := by
  obtain ⟨hinv, hunx⟩ := reachable_good hre
  have hvpos : 0 < (ob.recs k).Volume := by omega
  have hnb : ¬((ob.recs k).Volume < newV) := by omega
  have hneed : (ob.recs k).Price ≠ (ob.recs k).Price ∨ (ob.recs k).Volume ≠ newV :=
    Or.inr (by omega)
  rw [update_eq_mid_nobump hk hcan hpos hvpos hnb hneed]
  obtain ⟨hnk, hck, hrecs, hord, htr⟩ :=
    updMid_fields ob k oid ((ob.recs k).Price) newV ((ob.recs k).Inserted) ob.clock
  have hidk : (ob.recs k).ID = oid := (hinv.idxAlloc oid k hk).2
  set M := updMid ob k oid ((ob.recs k).Price) newV ((ob.recs k).Inserted) ob.clock with hM
  have hrk : M.recs k = { ob.recs k with Volume := newV } := by
    rw [hrecs]; simp [setRec]
  have hro : ∀ j, j ≠ k → M.recs j = ob.recs j := by
    intro j hj; rw [hrecs]; simp [setRec, hj]
  have hPr : ∀ j, (M.recs j).Price = (ob.recs j).Price := by
    intro j
    by_cases hj : j = k
    · rw [hj, hrk]
    · rw [hro j hj]
  have hIns : ∀ j, (M.recs j).Inserted = (ob.recs j).Inserted := by
    intro j
    by_cases hj : j = k
    · rw [hj, hrk]
    · rw [hro j hj]
  have hCan : ∀ j, (M.recs j).Cancelled = (ob.recs j).Cancelled := by
    intro j
    by_cases hj : j = k
    · rw [hj, hrk]
    · rw [hro j hj]
  have hndB : ob.BuyOrders.Nodup :=
    hinv.loop.nodup.sublist (List.sublist_append_left _ _)
  have hndS : ob.SellOrders.Nodup :=
    hinv.loop.nodup.sublist (List.sublist_append_right _ _)
  have hre1 : setRec ob.recs k ({ ob.recs k with Inserted := (ob.recs k).Inserted })
      = ob.recs := setRec_self ob.recs k
  have hlists : M.BuyOrders = ob.BuyOrders ∧ M.SellOrders = ob.SellOrders := by
    by_cases hside : (ob.recs k).Side = "BUY"
    · obtain ⟨hBeq, hSeq⟩ :=
        updMid_lists_buy ob k oid ((ob.recs k).Price) newV ((ob.recs k).Inserted)
          ob.clock hside
      rw [← hrecs] at hBeq
      rw [← hM] at hBeq hSeq
      rw [hre1, hidk] at hBeq
      have hkmem : k ∈ ob.BuyOrders := (hinv.liveIn oid k hk hcan hvpos).1 hside
      have huniq : ∀ j ∈ ob.BuyOrders, (ob.recs j).ID = oid → j = k := by
        intro j hj hid2
        have := hinv.listIdx j (Or.inl hj)
        rw [hid2, hk] at this
        injection this with h
        exact h.symm
      obtain ⟨l1, l2, hsplit, hrm, hkn1, hkn2⟩ :=
        removeFirstID_unique hkmem hidk huniq hndB
      rw [hrm] at hBeq
      have hsorted := hinv.loop.sortedBuy
      rw [hsplit, List.pairwise_append] at hsorted
      have hl1 : ∀ y ∈ l1, buyBefore (ob.recs y) (ob.recs k) = true :=
        fun y hy => hsorted.2.2 y hy k (List.mem_cons_self k l2)
      have hl2 : ∀ y ∈ l2, buyBefore (ob.recs k) (ob.recs y) = true :=
        (List.pairwise_cons.mp hsorted.2.1).1
      have hcong : ∀ y, buyBefore (M.recs k) (M.recs y) = buyBefore (ob.recs k) (ob.recs y) :=
        fun y => buyBefore_congr2 (hPr k) (hIns k) (hPr y) (hIns y)
      refine ⟨?_, hSeq⟩
      rw [hBeq]
      rw [insertByKey_restore ?_ ?_]
      · exact hsplit.symm
      · intro y hy
        show buyBefore (M.recs k) (M.recs y) = false
        rw [hcong y]
        exact buyBefore_asymm (hl1 y hy)
      · intro y hy
        show buyBefore (M.recs k) (M.recs y) = true
        rw [hcong y]
        exact hl2 y hy
    · by_cases hside2 : (ob.recs k).Side = "SELL"
      · obtain ⟨hSeq, hBeq⟩ :=
          updMid_lists_sell ob k oid ((ob.recs k).Price) newV ((ob.recs k).Inserted)
            ob.clock hside2
        rw [← hrecs] at hSeq
        rw [← hM] at hBeq hSeq
        rw [hre1, hidk] at hSeq
        have hkmem : k ∈ ob.SellOrders := (hinv.liveIn oid k hk hcan hvpos).2 hside2
        have huniq : ∀ j ∈ ob.SellOrders, (ob.recs j).ID = oid → j = k := by
          intro j hj hid2
          have := hinv.listIdx j (Or.inr hj)
          rw [hid2, hk] at this
          injection this with h
          exact h.symm
        obtain ⟨l1, l2, hsplit, hrm, hkn1, hkn2⟩ :=
          removeFirstID_unique hkmem hidk huniq hndS
        rw [hrm] at hSeq
        have hsorted := hinv.loop.sortedSell
        rw [hsplit, List.pairwise_append] at hsorted
        have hl1 : ∀ y ∈ l1, sellBefore (ob.recs y) (ob.recs k) = true :=
          fun y hy => hsorted.2.2 y hy k (List.mem_cons_self k l2)
        have hl2 : ∀ y ∈ l2, sellBefore (ob.recs k) (ob.recs y) = true :=
          (List.pairwise_cons.mp hsorted.2.1).1
        have hcong : ∀ y,
            sellBefore (M.recs k) (M.recs y) = sellBefore (ob.recs k) (ob.recs y) :=
          fun y => sellBefore_congr2 (hPr k) (hIns k) (hPr y) (hIns y)
        refine ⟨hBeq, ?_⟩
        rw [hSeq]
        rw [insertByKey_restore ?_ ?_]
        · exact hsplit.symm
        · intro y hy
          show sellBefore (M.recs k) (M.recs y) = false
          rw [hcong y]
          exact sellBefore_asymm (hl1 y hy)
        · intro y hy
          show sellBefore (M.recs k) (M.recs y) = true
          rw [hcong y]
          exact hl2 y hy
      · obtain ⟨hBeq, hSeq⟩ :=
          updMid_lists_other ob k oid ((ob.recs k).Price) newV ((ob.recs k).Inserted)
            ob.clock hside hside2
        rw [← hM] at hBeq hSeq
        exact ⟨hBeq, hSeq⟩
  obtain ⟨hBfinal, hSfinal⟩ := hlists
  have hords : (fun i => if i = oid then some k else ob.Orders i) = ob.Orders := by
    funext i
    by_cases hi : i = oid
    · rw [if_pos hi, hi]
      exact hk.symm
    · rw [if_neg hi]
  have hMR : M = { ob with recs := setRec ob.recs k ({ ob.recs k with Volume := newV }) } := by
    refine OrderBook.ext7 hnk hck ?_ hBfinal hSfinal ?_ htr
    · exact hrecs
    · exact hord.trans hords
  rw [hMR]
  refine matchOrders_id ?_ ?_ ?_
  · intro j hj
    dsimp only at hj ⊢
    have hc : (setRec ob.recs k ({ ob.recs k with Volume := newV }) j).Cancelled
        = (ob.recs j).Cancelled := by
      by_cases hjk : j = k
      · simp [setRec, hjk, hcan]
      · simp [setRec, hjk]
    rw [hc]
    exact hinv.loop.liveBuy j hj
  · intro j hj
    dsimp only at hj ⊢
    have hc : (setRec ob.recs k ({ ob.recs k with Volume := newV }) j).Cancelled
        = (ob.recs j).Cancelled := by
      by_cases hjk : j = k
      · simp [setRec, hjk, hcan]
      · simp [setRec, hjk]
    rw [hc]
    exact hinv.loop.liveSell j hj
  · intro bk hbk sk hsk hc1 hc2
    dsimp only at hbk hsk hc1 hc2 ⊢
    have hcfun : ∀ j, (setRec ob.recs k ({ ob.recs k with Volume := newV }) j).Cancelled
        = (ob.recs j).Cancelled := by
      intro j
      by_cases hjk : j = k
      · simp [setRec, hjk]
      · simp [setRec, hjk]
    have hpfun : ∀ j, (setRec ob.recs k ({ ob.recs k with Volume := newV }) j).Price
        = (ob.recs j).Price := by
      intro j
      by_cases hjk : j = k
      · simp [setRec, hjk]
      · simp [setRec, hjk]
    rw [hcfun] at hc1 hc2
    rw [hpfun, hpfun]
    exact hunx bk hbk sk hsk hc1 hc2

/-- C5: after any sequence of INSERT (with positive volume, not
pre-cancelled, fresh ID per the input grammar), UPDATE and CANCEL
operations from the empty book, the book is uncrossed: no live resting
BUY has a price at or above the price of any live resting SELL. -/
theorem C5_uncrossed {ob : OrderBook} (h : Reachable ob) : Uncrossed ob :=
  (reachable_good h).2

theorem C5_uncrossed_witness :
    Uncrossed ((emptyBook.Insert
        ({ ID := 1, Symbol := "FFLY", Side := "BUY", Price := 100000, Volume := 5,
           Inserted := 0, Cancelled := false })).Insert
      ({ ID := 2, Symbol := "FFLY", Side := "SELL", Price := 120000, Volume := 5,
         Inserted := 0, Cancelled := false })) :=
  C5_uncrossed (Reachable.insert _
    (Reachable.insert _ Reachable.empty (by decide) rfl rfl) (by decide) rfl rfl)

/-- C4: `Update` returns the book completely unchanged when the ID is
absent from the index, or the new volume is nonpositive, or the
referenced order is cancelled or has nonpositive residual volume; in
particular a nonpositive-volume update never cancels the order. -/
theorem C4_noop {ob : OrderBook} {oid newP newV : Int}
    (h : ob.Orders oid = none ∨ newV ≤ 0
      ∨ (∃ k, ob.Orders oid = some k
          ∧ ((ob.recs k).Cancelled = true ∨ (ob.recs k).Volume ≤ 0))) :
    ob.Update oid newP newV = ob := by
  cases hk : ob.Orders oid with
  | none =>
    unfold OrderBook.Update
    rw [hk]
  | some k =>
    unfold OrderBook.Update
    rw [hk]
    dsimp only
    by_cases hg1 : (ob.recs k).Cancelled = true ∨ newV ≤ 0
    · rw [if_pos hg1]
    · rw [if_neg hg1]
      have hvol : (ob.recs k).Volume ≤ 0 := by
        rcases h with h | h | ⟨k2, hk2, hc⟩
        · rw [h] at hk
          cases hk
        · exact absurd (Or.inr h) hg1
        · rw [hk] at hk2
          injection hk2 with he
          subst he
          rcases hc with hc | hc
          · exact absurd (Or.inl hc) hg1
          · exact hc
      rw [if_pos hvol]

theorem C4_noop_witness : emptyBook.Update 1 50000 5 = emptyBook :=
  C4_noop (Or.inl rfl)

theorem C3_volume_decrease_witness :
    (emptyBook.Insert ({ ID := 1, Symbol := "FFLY", Side := "BUY", Price := 110000, Volume := 5, Inserted := 0, Cancelled := false })).Update 1 (((emptyBook.Insert ({ ID := 1, Symbol := "FFLY", Side := "BUY", Price := 110000, Volume := 5, Inserted := 0, Cancelled := false })).recs 0).Price) 3
      = { emptyBook.Insert ({ ID := 1, Symbol := "FFLY", Side := "BUY", Price := 110000, Volume := 5, Inserted := 0, Cancelled := false }) with
          recs := setRec (emptyBook.Insert ({ ID := 1, Symbol := "FFLY", Side := "BUY", Price := 110000, Volume := 5, Inserted := 0, Cancelled := false })).recs 0
            ({ (emptyBook.Insert ({ ID := 1, Symbol := "FFLY", Side := "BUY", Price := 110000, Volume := 5, Inserted := 0, Cancelled := false })).recs 0 with Volume := 3 }) } := by
  refine C3_volume_decrease ?_ ?_ ?_ ?_ ?_
  · exact Reachable.insert _ Reachable.empty (by decide) rfl rfl
  · rfl
  · rfl
  · decide
  · decide

/-- C2 (counterexample): after `INSERT BUY id 1 at 11`, `INSERT BUY id 2
at 10`, the update of order 1 to price 10 with unchanged volume keeps its
original stamp 0 and leaves it at the head of the buy queue, before the
pre-existing equal-price order 2 (stamp 1) — it does not lose time
priority, contradicting the claim for a pure price change without a
volume increase. -/
theorem C2_counterexample :
    (((emptyBook.Insert ({ ID := 1, Symbol := "FFLY", Side := "BUY", Price := 110000, Volume := 5, Inserted := 0, Cancelled := false })).Insert ({ ID := 2, Symbol := "FFLY", Side := "BUY", Price := 100000, Volume := 5, Inserted := 0, Cancelled := false })).Update 1 100000 5).BuyOrders.map
      (fun j =>
        (((((emptyBook.Insert ({ ID := 1, Symbol := "FFLY", Side := "BUY", Price := 110000, Volume := 5, Inserted := 0, Cancelled := false })).Insert ({ ID := 2, Symbol := "FFLY", Side := "BUY", Price := 100000, Volume := 5, Inserted := 0, Cancelled := false })).Update 1 100000 5).recs j).ID,
          ((((emptyBook.Insert ({ ID := 1, Symbol := "FFLY", Side := "BUY", Price := 110000, Volume := 5, Inserted := 0, Cancelled := false })).Insert ({ ID := 2, Symbol := "FFLY", Side := "BUY", Price := 100000, Volume := 5, Inserted := 0, Cancelled := false })).Update 1 100000 5).recs j).Price,
          ((((emptyBook.Insert ({ ID := 1, Symbol := "FFLY", Side := "BUY", Price := 110000, Volume := 5, Inserted := 0, Cancelled := false })).Insert ({ ID := 2, Symbol := "FFLY", Side := "BUY", Price := 100000, Volume := 5, Inserted := 0, Cancelled := false })).Update 1 100000 5).recs j).Inserted))
      = [(1, 100000, 0), (2, 100000, 1)] := by
  rfl

/-- C2 (amended): on an UPDATE of a live order, a fresh monotonic stamp
(the current clock, above every pre-existing stamp) is assigned exactly
when the volume strictly increases; without a volume increase — in
particular for a pure price change — the order keeps its original stamp
and therefore its time priority among equal-price orders. -/
theorem C2_amended {ob : OrderBook} {oid newP newV : Int} {k : Nat}
    (hre : Reachable ob) (hk : ob.Orders oid = some k)
    (hcan : (ob.recs k).Cancelled = false)
    (hvpos : 0 < (ob.recs k).Volume)
    (hnv : 0 < newV) :
    ((ob.recs k).Volume < newV →
      ((ob.Update oid newP newV).recs k).Inserted = ob.clock
      ∧ (∀ j, j < ob.nextKey → (ob.recs j).Inserted < ob.clock))
    ∧ (¬((ob.recs k).Volume < newV) →
      ((ob.Update oid newP newV).recs k).Inserted = (ob.recs k).Inserted) := by
  obtain ⟨hinv, hunx⟩ := reachable_good hre
  constructor
  · intro hbump
    constructor
    · rw [update_eq_mid_bump hk hcan hnv hvpos hbump]
      have hinv2 := update_mid_inv newP hinv hk hcan hnv
        (show ob.clock < ob.clock + 1 by omega) (by omega)
        (fun j hj _ => by have := hinv.tsLt j hj; omega)
      have hres := matchOrders_master oid ((ob.recs k).Side) hinv2.loop
      rw [(hres.shape k).2.2.2.2.1]
      obtain ⟨hnk, hck, hrecs, hord, htr⟩ :=
        updMid_fields ob k oid newP newV ob.clock (ob.clock + 1)
      rw [hrecs]
      simp [setRec]
    · intro j hj
      exact hinv.tsLt j hj
  · intro hnb
    by_cases hneed : (ob.recs k).Price ≠ newP ∨ (ob.recs k).Volume ≠ newV
    · rw [update_eq_mid_nobump hk hcan hnv hvpos hnb hneed]
      have hts := hinv.tsLt k (hinv.idxAlloc oid k hk).1
      have hinv2 := update_mid_inv newP hinv hk hcan hnv hts (le_refl _)
        (fun j hj hjk => hinv.tsUniq j hj k (hinv.idxAlloc oid k hk).1 hjk)
      have hres := matchOrders_master oid ((ob.recs k).Side) hinv2.loop
      rw [(hres.shape k).2.2.2.2.1]
      obtain ⟨hnk, hck, hrecs, hord, htr⟩ :=
        updMid_fields ob k oid newP newV ((ob.recs k).Inserted) ob.clock
      rw [hrecs]
      simp [setRec]
    · rw [update_eq_noop_path hk hcan hnv hvpos hnb hneed]
      have hres := matchOrders_master oid ((ob.recs k).Side) hinv.loop
      rw [(hres.shape k).2.2.2.2.1]

theorem C2_amended_witness :
    (((emptyBook.Insert ({ ID := 1, Symbol := "FFLY", Side := "BUY", Price := 110000, Volume := 5, Inserted := 0, Cancelled := false })).Update 1 100000 7).recs 0).Inserted = (emptyBook.Insert ({ ID := 1, Symbol := "FFLY", Side := "BUY", Price := 110000, Volume := 5, Inserted := 0, Cancelled := false })).clock := by
  refine ((C2_amended ?_ ?_ ?_ ?_ ?_).1 ?_).1
  · exact Reachable.insert _ Reachable.empty (by decide) rfl rfl
  · rfl
  · rfl
  · decide
  · decide
  · decide

/-- C10: an INSERT whose ID is already bound in the index is not a no-op:
the new order is allocated and pushed into the heap of its side alongside
every order already there (the old carrier of the ID included), the index
entry is overwritten to the new record, and the matching loop runs; on
the engine, two BUY inserts sharing ID 1 both subsequently trade against
one SELL, each fill reporting maker ID 1. -/
theorem C10_duplicate_insert {ob : OrderBook} (order : Order) (k0 : Nat)
    (hdup : ob.Orders order.ID = some k0) (hk0 : k0 < ob.nextKey) :
    ob.Insert order = (pushState ob order).matchOrders order.ID order.Side
    ∧ (pushState ob order).Orders order.ID = some ob.nextKey
    ∧ (pushState ob order).recs k0 = ob.recs k0
    ∧ (order.Side = "BUY" →
        ob.nextKey ∈ (pushState ob order).BuyOrders
        ∧ ∀ j ∈ ob.BuyOrders, j ∈ (pushState ob order).BuyOrders)
    ∧ (order.Side = "SELL" →
        ob.nextKey ∈ (pushState ob order).SellOrders
        ∧ ∀ j ∈ ob.SellOrders, j ∈ (pushState ob order).SellOrders)
    ∧ runMatchingEngine
        ["INSERT,1,FFLY,BUY,10,5", "INSERT,1,FFLY,BUY,10,3", "INSERT,2,FFLY,SELL,10,8"]
      = .ok ["FFLY,10,5,2,1", "FFLY,10,3,2,1", "===FFLY==="] := by
  obtain ⟨hnk, hck, hrecs, hord, htr⟩ := pushState_fields ob order
  refine ⟨Insert_eq_push ob order, ?_, ?_, ?_, ?_, rfl⟩
  · rw [hord]
    simp
  · rw [hrecs]
    simp [setRec, Nat.ne_of_lt hk0]
  · intro hb
    obtain ⟨hBeq, hSeq⟩ := @pushState_buy ob order hb
    constructor
    · rw [hBeq]
      exact insertByKey_mem.mpr (Or.inl rfl)
    · intro j hj
      rw [hBeq]
      exact insertByKey_mem.mpr (Or.inr hj)
  · intro hs
    obtain ⟨hSeq, hBeq⟩ := @pushState_sell ob order hs
    constructor
    · rw [hSeq]
      exact insertByKey_mem.mpr (Or.inl rfl)
    · intro j hj
      rw [hSeq]
      exact insertByKey_mem.mpr (Or.inr hj)

theorem C10_duplicate_insert_witness :
    (pushState (emptyBook.Insert ({ ID := 1, Symbol := "FFLY", Side := "BUY", Price := 100000, Volume := 5, Inserted := 0, Cancelled := false })) ({ ID := 1, Symbol := "FFLY", Side := "BUY", Price := 100000, Volume := 3, Inserted := 0, Cancelled := false })).Orders 1
      = some (emptyBook.Insert ({ ID := 1, Symbol := "FFLY", Side := "BUY", Price := 100000, Volume := 5, Inserted := 0, Cancelled := false })).nextKey := by
  refine (C10_duplicate_insert _ 0 ?_ ?_).2.1
  · rfl
  · decide
